import Mathlib

/-!
Verification of the workspace module/task state-synchronization core.

The definitions below are a shallow embedding of the TypeScript source
(src/components/workspace.tsx and src/components/modules/todolist.tsx):
pure data is modelled by structures, the React state updates by explicit
state passing, and the unguarded recursive traversals of the source by
fuel-indexed functions returning `none` exactly when the recursion of the
source would run forever (or overflow the stack).  JavaScript string ids
are Lean strings; optional fields are `Option`.
-/

/-- An image attachment record of a task: `{ id, path, isCover }`. -/
structure TImage where
  id : String
  path : String
  isCover : Bool
deriving DecidableEq, Repr

/-- A task item.  Fields as used by workspace.tsx: `id`, `text`, `done`,
`description?`, `color?`, `originModuleId`, `parentId?`, `images?`
(the `images` list models the optional array, absent = `[]`). -/
structure TodoItem where
  id : String
  text : String := ""
  done : Bool := false
  description : Option String := none
  color : Option String := none
  originModuleId : String := ""
  parentId : Option String := none
  images : List TImage := []
deriving DecidableEq, Repr

/-- The `updateItem` helper of `updateTodo`: find the first task with the
given id (`findIndex`) and replace its `done` field, leaving the list
unchanged when the id is absent. -/
def updateItemDone (itemId : String) (d : Bool) : List TodoItem → List TodoItem
  | [] => []
  | t :: ts =>
    if t.id = itemId then { t with done := d } :: ts
    else t :: updateItemDone itemId d ts

/-- The `markChildren` helper of `updateTodo`: set `done` on every child
found by filtering on `parentId`, recursing into each child after updating
it (`children.forEach` threads the evolving collection, modelled by the
monadic fold).  The source recursion has no visited guard, so a parent
cycle makes it run forever; the fuel counts recursion depth and `none`
means the source would not terminate at that depth. -/
def markChildrenF : Nat → Bool → String → List TodoItem → Option (List TodoItem)
  | 0, _, _, _ => none
  | n + 1, st, pId, todos =>
    (todos.filter (fun t => t.parentId = some pId)).foldlM
      (fun acc c => markChildrenF n st c.id (updateItemDone c.id st acc)) todos

/-- The upward loop of `updateTodo` for `done = false`:
`while (curr && curr.parentId) { updateItem(curr.parentId, {done:false}); curr = find(parentId) }`. -/
def forceUpF : Nat → Option TodoItem → List TodoItem → Option (List TodoItem)
  | _, none, todos => some todos
  | n, some curr, todos =>
    match curr.parentId with
    | none => some todos
    | some p =>
      match n with
      | 0 => none
      | m + 1 =>
        let todos2 := updateItemDone p false todos
        forceUpF m (todos2.find? (fun t => t.id = p)) todos2

/-- The upward loop of `updateTodo` for `done = true`: set each parent done
only while every sibling (direct child of that parent) is already done,
breaking at the first parent where the test fails. -/
def bubbleUpF : Nat → Option TodoItem → List TodoItem → Option (List TodoItem)
  | _, none, todos => some todos
  | n, some curr, todos =>
    match curr.parentId with
    | none => some todos
    | some p =>
      if (todos.filter (fun t => t.parentId = some p)).all (fun s => s.done) then
        match n with
        | 0 => none
        | m + 1 =>
          let todos2 := updateItemDone p true todos
          bubbleUpF m (todos2.find? (fun t => t.id = p)) todos2
      else some todos

/-- The `done`-update branch of `updateTodo(id, updates)`: patch the task,
cascade to descendants via `markChildren`, then walk the ancestors (forcing
`false`, or conditionally setting `true`). -/
def updateTodoDoneF (n : Nat) (id : String) (newStatus : Bool) (todos : List TodoItem) :
    Option (List TodoItem) :=
  let t1 := updateItemDone id newStatus todos
  match markChildrenF n newStatus id t1 with
  | none => none
  | some t2 =>
    if newStatus then bubbleUpF n (t2.find? (fun t => t.id = id)) t2
    else forceUpF n (t2.find? (fun t => t.id = id)) t2

/-- The `getDescendants` helper shared by `deleteTodo` and `moveTodo`:
ids of the children (filtered by `parentId`) followed by the concatenated
descendants of each child (`children.flatMap`), with no visited guard
(fuel as in `markChildrenF`). -/
def getDescendantsF : Nat → String → List TodoItem → Option (List String)
  | 0, _, _ => none
  | n + 1, rootId, allItems =>
    let children := allItems.filter (fun i => i.parentId = some rootId)
    match children.mapM (fun c => getDescendantsF n c.id allItems) with
    | none => none
    | some ls => some (children.map (fun c => c.id) ++ ls.flatten)

/-- The image paths `deleteTodo` passes to `removeImage`: the images of the
deleted task itself followed by the images of each descendant (looked up by
id in the collection). -/
def deleteTodoImagePaths (id : String) (descs : List String) (todos : List TodoItem) :
    List String :=
  (match todos.find? (fun t => t.id = id) with
   | some t => t.images.map (fun img => img.path)
   | none => []) ++
  descs.flatMap (fun d =>
    match todos.find? (fun t => t.id = d) with
    | some t => t.images.map (fun img => img.path)
    | none => [])

/-- The `deleteTodo` cascade: collect `id` with its descendant closure,
remove the attachments of each collected task (returned as the trace of
`removeImage` calls) and filter the collection.  Fuel as in
`getDescendantsF`. -/
def deleteTodoF (n : Nat) (id : String) (todos : List TodoItem) :
    Option (List TodoItem × List String) :=
  match getDescendantsF n id todos with
  | none => none
  | some descs =>
    let toDelete := id :: descs
    some (todos.filter (fun t => ¬ toDelete.contains t.id),
          deleteTodoImagePaths id descs todos)

/-- The `moveTodo` operation: reassign `originModuleId` on `id` and its
descendant closure; clear `parentId` on `id` itself when it changes module;
leave every other task untouched. -/
def moveTodoF (n : Nat) (itemId targetModuleId : String) (todos : List TodoItem) :
    Option (List TodoItem) :=
  match getDescendantsF n itemId todos with
  | none => none
  | some descs =>
    let idsToMove := itemId :: descs
    some (todos.map (fun t =>
      if idsToMove.contains t.id then
        let newParentId :=
          if t.id = itemId ∧ t.originModuleId ≠ targetModuleId then none else t.parentId
        { t with originModuleId := targetModuleId, parentId := newParentId }
      else t))

/-- Drop positions for `reorderTodo`. -/
inductive ReorderPos
  | before
  | after
  | inside
deriving DecidableEq, Repr

/-- The `reorderTodo` operation (no recursion, hence no fuel): remove the
dragged task, recompute its `originModuleId` and `parentId` from the target
and position, and splice it back in.  A missing dragged id returns the
collection unchanged.  The source reads the target item with a non-null
assertion; the `getD` default is never used because the target was found
among the remaining tasks. -/
def reorderTodo (draggedId : String) (targetId : Option String) (position : ReorderPos)
    (moduleId : String) (todos : List TodoItem) : List TodoItem :=
  match todos.find? (fun t => t.id = draggedId) with
  | none => todos
  | some draggedItem =>
    let newTodos := todos.filter (fun t => t.id ≠ draggedId)
    let updatedItem := { draggedItem with originModuleId := moduleId }
    match targetId with
    | none => newTodos ++ [{ updatedItem with parentId := none }]
    | some tid =>
      match newTodos.findIdx? (fun t => t.id = tid) with
      | none => newTodos ++ [{ updatedItem with parentId := none }]
      | some targetIndex =>
        let targetItem := (todos.find? (fun t => t.id = tid)).getD updatedItem
        let updatedItem2 :=
          if position = ReorderPos.inside then { updatedItem with parentId := some tid }
          else { updatedItem with parentId := targetItem.parentId }
        let insertIndex := if position = ReorderPos.after then targetIndex + 1 else targetIndex
        newTodos.insertIdx insertIndex updatedItem2

/-! The module registry and layout reconciler (workspace.tsx). -/

/-- The module kinds of the toolbar (`ModuleType` in the source). -/
inductive MType
  | notepad
  | clock
  | whiteboard
  | calendar
  | todo
  | stickynote
  | events
  | planner
deriving DecidableEq, Repr

/-- Default sizes from the MODULE_SPECS table (w, h). -/
def moduleSpecs : MType → Int × Int
  | MType.notepad => (16, 12)
  | MType.clock => (8, 8)
  | MType.whiteboard => (16, 16)
  | MType.calendar => (12, 12)
  | MType.todo => (12, 8)
  | MType.stickynote => (8, 8)
  | MType.events => (14, 14)
  | MType.planner => (16, 12)

/-- A module entity (`ModuleItem` in the source): identity `i`, the free-view
rectangle `x, y, w, h`, kind, shared properties, the rectangle snapshot
`prevPos` taken at minimize time, and the structured-view `orderIndex`. -/
structure MItem where
  i : String
  x : Int := 0
  y : Int := 0
  w : Int := 0
  h : Int := 0
  type : MType
  title : Option String := none
  content : Option String := none
  themeIndex : Option Nat := none
  prevPos : Option (Int × Int × Int × Int) := none
  orderIndex : Option Nat := none
deriving DecidableEq, Repr

/-- The two view modes. -/
inductive VMode
  | free
  | structured
deriving DecidableEq, Repr

/-- The mode other than the given one. -/
def otherMode : VMode → VMode
  | VMode.free => VMode.structured
  | VMode.structured => VMode.free

/-- The whole workspace state: the active view mode, the in-memory active and
minimized lists of the current view, the four persisted lists (items and
minimized per mode), and the global task collection.  localStorage reads and
writes are modelled as reads and writes of the stored fields. -/
structure WState where
  viewMode : VMode
  items : List MItem := []
  minimizedItems : List MItem := []
  storedItemsFree : List MItem := []
  storedMinFree : List MItem := []
  storedItemsStructured : List MItem := []
  storedMinStructured : List MItem := []
  globalTodos : List TodoItem := []
deriving DecidableEq, Repr

/-- Read the persisted active list of a mode (`loadState(ws_items_mode)`). -/
def storedItems (s : WState) : VMode → List MItem
  | VMode.free => s.storedItemsFree
  | VMode.structured => s.storedItemsStructured

/-- Read the persisted minimized list of a mode (`loadState(ws_minimized_mode)`). -/
def storedMin (s : WState) : VMode → List MItem
  | VMode.free => s.storedMinFree
  | VMode.structured => s.storedMinStructured

/-- Write the persisted active list of a mode. -/
def setStoredItems (s : WState) : VMode → List MItem → WState
  | VMode.free, l => { s with storedItemsFree := l }
  | VMode.structured, l => { s with storedItemsStructured := l }

/-- Write the persisted minimized list of a mode. -/
def setStoredMin (s : WState) : VMode → List MItem → WState
  | VMode.free, l => { s with storedMinFree := l }
  | VMode.structured, l => { s with storedMinStructured := l }

/-- Replace the in-memory active list; the persistence effect
(`useEffect` saving `ws_items_viewMode`) keeps the current mode's stored
list in sync. -/
def setItemsCur (s : WState) (l : List MItem) : WState :=
  setStoredItems { s with items := l } s.viewMode l

/-- Replace the in-memory minimized list, with the same persistence effect. -/
def setMinimizedCur (s : WState) (l : List MItem) : WState :=
  setStoredMin { s with minimizedItems := l } s.viewMode l

/-- The source computes `Math.max(...items.map(i => i.orderIndex ?? 0))`,
only reached on a nonempty list, where the fold below agrees with the
JavaScript maximum because every value is a natural number. -/
def maxOrderIndex (items : List MItem) : Nat :=
  (items.map (fun i => i.orderIndex.getD 0)).foldl Nat.max 0

/-- The appended order index used by create and restore in structured view:
`length > 0 ? max(orderIndex ?? 0) + 1 : 0` (restore phrases the empty case
as `max = -1` followed by `+ 1`). -/
def nextOrderIndex (items : List MItem) : Nat :=
  if items.isEmpty then 0 else maxOrderIndex items + 1

/-- The `minimizeModule` operation: snapshot the rectangle into `prevPos`,
append to the minimized list and drop from the active list.  No reindexing
of the remaining order indices and no mirroring into the other view's
stores. -/
def minimizeModule (id : String) (s : WState) : WState :=
  match s.items.find? (fun i => i.i = id) with
  | none => s
  | some item =>
    let itemWithPos := { item with prevPos := some (item.x, item.y, item.w, item.h) }
    setMinimizedCur (setItemsCur s (s.items.filter (fun i => i.i ≠ id)))
      (s.minimizedItems ++ [itemWithPos])

/-- The mirroring tail of `restoreModule`: restore the module in the other
view's persisted stores as well, when it is minimized there. -/
def restoreMirror (id : String) (s : WState) : WState :=
  let om := otherMode s.viewMode
  match (storedMin s om).find? (fun i => i.i = id) with
  | none => s
  | some otherItem =>
    let oItems := storedItems s om
    let otherRestored :=
      if om = VMode.structured then
        { otherItem with
          orderIndex := some (if oItems.length > 0 then maxOrderIndex oItems + 1 else 0) }
      else
        { otherItem with
          x := (otherItem.prevPos.map (fun p => p.1)).getD 0,
          y := (otherItem.prevPos.map (fun p => p.2.1)).getD 0,
          w := (otherItem.prevPos.map (fun p => p.2.2.1)).getD otherItem.w,
          h := (otherItem.prevPos.map (fun p => p.2.2.2)).getD otherItem.h }
    setStoredMin (setStoredItems s om (oItems ++ [otherRestored])) om
      ((storedMin s om).filter (fun i => i.i ≠ id))

/-- The `restoreModule` operation: move a minimized module back to the
active list; in structured view it is appended at `max(orderIndex) + 1`
(a duplicate id is a no-op), in free view it takes the supplied drop
position or the `prevPos` snapshot.  The `.getD` fallbacks mirror the
source's `|| 0` and `|| item.w` defaults (the width and height of a module
are never 0, and a snapshot x or y of 0 coincides with the fallback). -/
def restoreModule (id : String) (dropX dropY : Option Int) (s : WState) : WState :=
  match s.minimizedItems.find? (fun i => i.i = id) with
  | none => s
  | some item =>
    if s.viewMode = VMode.structured then
      if s.items.any (fun i => i.i = id) then s
      else
        let restored := { item with
          orderIndex := some (if s.items.length > 0 then maxOrderIndex s.items + 1 else 0) }
        restoreMirror id
          (setMinimizedCur (setItemsCur s (s.items ++ [restored]))
            (s.minimizedItems.filter (fun i => i.i ≠ id)))
    else
      let restored := { item with
        x := dropX.getD ((item.prevPos.map (fun p => p.1)).getD 0),
        y := dropY.getD ((item.prevPos.map (fun p => p.2.1)).getD 0),
        w := (item.prevPos.map (fun p => p.2.2.1)).getD item.w,
        h := (item.prevPos.map (fun p => p.2.2.2)).getD item.h }
      restoreMirror id
        (setMinimizedCur (setItemsCur s (s.items ++ [restored]))
          (s.minimizedItems.filter (fun i => i.i ≠ id)))

/-- Default titles assigned at creation (capitalized kind name, with the
special cases of the source). -/
def defaultTitle : MType → String
  | MType.notepad => "Notepad"
  | MType.clock => "Clock"
  | MType.whiteboard => "Whiteboard"
  | MType.calendar => "Calendar"
  | MType.todo => "To-do (click to edit)"
  | MType.stickynote => "Stickynote"
  | MType.events => "Events"
  | MType.planner => "Planner"

/-- Whether a clock module is in the active list (`hasClock` in the source,
which also disables the clock tool in the toolbar). -/
def hasClock (items : List MItem) : Bool :=
  items.any (fun i => i.type = MType.clock)

/-- The module-creation part of `onDrop`: a clock drop is rejected while the
active list already holds a clock; otherwise a fresh module is added to the
current view (at the drop position in free view, appended with
`max(orderIndex) + 1` in structured view) and an equivalent record is
written into the other mode's persisted store with that mode's own default
placement.  The generated `crypto.randomUUID` is passed in as `uniqueId`. -/
def onDropCreate (uniqueId : String) (dragType : MType) (dropX dropY : Int) (s : WState) :
    WState :=
  if dragType = MType.clock ∧ hasClock s.items then s
  else
    let specs := moduleSpecs dragType
    let structuredNow := s.viewMode = VMode.structured
    let newItem : MItem := {
      i := uniqueId,
      x := if structuredNow then 0 else dropX,
      y := if structuredNow then 0 else dropY,
      w := if structuredNow then 16 else specs.1,
      h := specs.2,
      type := dragType,
      title := some (defaultTitle dragType),
      content := some "",
      themeIndex := some 0,
      orderIndex := if structuredNow then
          some (if s.items.length > 0 then maxOrderIndex s.items + 1 else 0)
        else none }
    let s1 := if s.items.any (fun i => i.i = uniqueId) then s
      else setItemsCur s (s.items ++ [newItem])
    let om := otherMode s.viewMode
    let oItems := storedItems s1 om
    if oItems.any (fun i => i.i = uniqueId) then s1
    else
      let otherViewItem : MItem := { newItem with
        x := if om = VMode.structured then 0 else ((Int.ofNat oItems.length % 10) * 16),
        y := if om = VMode.structured then 0 else ((Int.ofNat oItems.length / 10) * 12),
        w := if om = VMode.structured then 16 else specs.1,
        h := specs.2,
        orderIndex := if om = VMode.structured then
            some (if oItems.length > 0 then maxOrderIndex oItems + 1 else 0)
          else none }
      setStoredItems s1 om (oItems ++ [otherViewItem])

/-- Truthiness of `item.content && item.content.trim().length > 0`:
an absent or empty string is falsy, otherwise the trimmed text must be
nonempty. -/
def contentTrimNonempty : Option String → Bool
  | none => false
  | some c => c ≠ "" ∧ c.trim.length > 0

/-- Truthiness of `item.content && item.content.length > 50`. -/
def contentLongerThan50 : Option String → Bool
  | none => false
  | some c => c ≠ "" ∧ c.length > 50

/-- The `hasContent` computation of `requestDelete`, translated with
JavaScript's dangling-else association: each `else` binds to the nearest
unmatched `if`, so the whole `whiteboard / todo / planner` chain is nested
inside the branch for notepad and stickynote and is unreachable for those
kinds, and `hasContent` stays false for every other kind. -/
def requestDeleteHasContent (item : MItem) (globalTodos : List TodoItem) : Bool :=
  if item.type = MType.notepad ∨ item.type = MType.stickynote then
    if contentTrimNonempty item.content then true
    else
      if item.type = MType.whiteboard then
        if contentLongerThan50 item.content then true
        else
          if item.type = MType.todo then
            if globalTodos.any (fun t => t.originModuleId = item.i) then true
            else
              if item.type = MType.planner then
                if contentLongerThan50 item.content then true else false
              else false
          else false
      else false
  else false

/-- What `requestDelete` does for an id: nothing when the id is not active,
otherwise ask for confirmation (`setDeleteConfirmId`) when `hasContent`
holds and delete immediately otherwise. -/
inductive DeleteAction
  | noop
  | confirm
  | immediate
deriving DecidableEq, Repr

/-- The dispatch of `requestDelete`. -/
def requestDeleteAction (id : String) (s : WState) : DeleteAction :=
  match s.items.find? (fun i => i.i = id) with
  | none => DeleteAction.noop
  | some item =>
    if requestDeleteHasContent item s.globalTodos then DeleteAction.confirm
    else DeleteAction.immediate

/-- The `performDelete` operation.  It filters the module out of the current
view's active list and out of the other view's persisted active and
minimized lists, and filters every task with the module's `originModuleId`
out of the global collection; the current view's minimized list is not
touched and no `removeImage` call is made, so the returned trace of deleted
attachment paths is empty. -/
def performDelete (id : String) (s : WState) : WState × List String :=
  let s1 := setItemsCur s (s.items.filter (fun i => i.i ≠ id))
  let s2 := { s1 with globalTodos := s1.globalTodos.filter (fun t => t.originModuleId ≠ id) }
  let om := otherMode s.viewMode
  let s3 := setStoredItems s2 om ((storedItems s2 om).filter (fun i => i.i ≠ id))
  let s4 := setStoredMin s3 om ((storedMin s3 om).filter (fun i => i.i ≠ id))
  (s4, [])

/-- A shared-property patch (`Partial<ModuleItem>` restricted to the fields
`updateContent` is called with): a `some` field is a key present in the
patch object. -/
structure MPatch where
  title : Option String := none
  content : Option String := none
  themeIndex : Option Nat := none
deriving DecidableEq, Repr

/-- The spread `{ ...i, ...data }` for a shared-property patch. -/
def applyPatch (p : MPatch) (m : MItem) : MItem :=
  { m with
    title := match p.title with | some t => some t | none => m.title,
    content := match p.content with | some c => some c | none => m.content,
    themeIndex := match p.themeIndex with | some t => some t | none => m.themeIndex }

/-- The `updateContent` operation: patch the module in the active in-memory
list and mirror the patch into the other view's persisted active and
minimized lists; the in-memory minimized list is patched only when the id is
minimized in the current view. -/
def updateContent (id : String) (p : MPatch) (s : WState) : WState :=
  let s1 := setItemsCur s (s.items.map (fun i => if i.i = id then applyPatch p i else i))
  let om := otherMode s.viewMode
  let s2 := setStoredItems s1 om
    ((storedItems s1 om).map (fun i => if i.i = id then applyPatch p i else i))
  let s3 :=
    if s.minimizedItems.any (fun i => i.i = id) then
      setMinimizedCur s2 (s2.minimizedItems.map (fun i => if i.i = id then applyPatch p i else i))
    else s2
  setStoredMin s3 om
    ((storedMin s3 om).map (fun i => if i.i = id then applyPatch p i else i))

/-- The toolbar type order used by the grouped initial structured layout. -/
def typeOrder : List MType :=
  [MType.notepad, MType.stickynote, MType.whiteboard, MType.todo,
   MType.planner, MType.calendar, MType.events, MType.clock]

/-- The comparator `(a.orderIndex ?? 999999) - (b.orderIndex ?? 999999)`
as a total boolean order; JavaScript's `Array.prototype.sort` is stable,
matched here by `mergeSort`. -/
def oiLe (a b : MItem) : Bool :=
  a.orderIndex.getD 999999 ≤ b.orderIndex.getD 999999

/-- The `calculateStructuredLayout` function: when some module already has
an `orderIndex`, stably sort by it (missing values sort as 999999) and
reassign contiguous indices; otherwise lay the modules out grouped by kind
in toolbar order, assigning contiguous indices. -/
def calculateStructuredLayout (modules : List MItem) : List MItem :=
  if modules.isEmpty then []
  else if modules.any (fun m => m.orderIndex ≠ none) then
    (modules.mergeSort oiLe).mapIdx (fun idx m => { m with orderIndex := some idx })
  else
    (typeOrder.flatMap (fun ty => modules.filter (fun m => m.type = ty))).mapIdx
      (fun idx m => { m with orderIndex := some idx })

/-- The merge of `toggleViewMode` for a module present in both views:
`{ ...newItem, ...currentItem, x: newItem.x, y: newItem.y, w: newItem.w,
h: newItem.h }`.  Every module literal in the source carries all keys (a
missing optional value is an explicitly `undefined`-valued key, which the
spread still copies), so every field of `currentItem` wins except the
rectangle, which is restored from `newItem`. -/
def mergeModule (newItem currentItem : MItem) : MItem :=
  { currentItem with x := newItem.x, y := newItem.y, w := newItem.w, h := newItem.h }

/-- The merge loop of `toggleViewMode` over the target mode's list: a
module also present in the current list takes the current copy's properties
with the target record's rectangle, a module only in the target list is
kept as-is. -/
def mergeLists (current newItems : List MItem) : List MItem :=
  newItems.map (fun ni =>
    match current.find? (fun ci => ci.i = ni.i) with
    | some ci => mergeModule ni ci
    | none => ni)

/-- The free-view branch of `toggleViewMode` for modules only present in
the current list: append them behind the merged list at default grid
slots. -/
def appendFreeDefaults (merged itemsToAdd : List MItem) : List MItem :=
  merged ++ itemsToAdd.mapIdx (fun idx it =>
    let spec := moduleSpecs it.type
    { it with
      x := (Int.ofNat (merged.length + idx) % 10) * 16,
      y := (Int.ofNat (merged.length + idx) / 10) * 12,
      w := spec.1,
      h := spec.2 })

/-- The `toggleViewMode` operation: persist the current mode's lists, load
the target mode's lists, merge by id (shared properties from the list being
left, rectangle from the target's record), append the modules only present
in the current list with the target mode's default placement, and for a
switch to structured view run `calculateStructuredLayout` over the result.
The source builds the current-item map with `new Map`, where the last
duplicate id would win; `find?` takes the first, which agrees on the
duplicate-free states of the claims. -/
def toggleViewMode (s : WState) : WState :=
  let newMode := otherMode s.viewMode
  let s1 := setStoredMin (setStoredItems s s.viewMode s.items) s.viewMode s.minimizedItems
  let newItems := storedItems s1 newMode
  let newMin := storedMin s1 newMode
  let merged := mergeLists s.items newItems
  let itemsToAdd := s.items.filter (fun it => ¬ newItems.any (fun ni => ni.i = it.i))
  let finalItems :=
    if newMode = VMode.structured then
      calculateStructuredLayout (merged ++ itemsToAdd)
    else
      appendFreeDefaults merged itemsToAdd
  setMinimizedCur (setItemsCur { s1 with viewMode := newMode } finalItems) newMin

/-- The duplicate filter of `getSortedItems`: keep the first occurrence of
each id (`index === self.findIndex(i => i.i === item.i)`). -/
def dedupById : List MItem → List MItem
  | [] => []
  | it :: rest => it :: dedupById (rest.filter (fun j => j.i ≠ it.i))
termination_by l => l.length
decreasing_by
  simp only [List.length_cons, Nat.lt_succ_iff]
  exact List.length_filter_le _ _

/-- The `getSortedItems` helper for structured mode: duplicates dropped,
then a stable sort by `orderIndex ?? 999999`. -/
def getSortedItems (items : List MItem) : List MItem :=
  (dedupById items).mergeSort oiLe

/-- dnd-kit's `arrayMove`: remove the element at `fromIdx` and reinsert it
at `toIdx` (both indices are in range in every call site). -/
def arrayMove (l : List MItem) (fromIdx toIdx : Nat) : List MItem :=
  match l.get? fromIdx with
  | none => l
  | some a => (l.eraseIdx fromIdx).insertIdx toIdx a

/-- The commit handler `handleDragEndStructured` of a structured drag: when
the drop target differs from the dragged module, move the dragged module to
the target's position in the sorted order and reassign contiguous order
indices.  The source computes both `findIndex` calls without a guard; the
ids always come from rendered modules, so both are found. -/
def handleDragEndStructured (activeId overId : String) (s : WState) : WState :=
  if activeId ≠ overId then
    let sorted := getSortedItems s.items
    match sorted.findIdx? (fun m => m.i = activeId), sorted.findIdx? (fun m => m.i = overId) with
    | some oldIdx, some newIdx =>
      setItemsCur s
        ((arrayMove sorted oldIdx newIdx).mapIdx (fun idx m => { m with orderIndex := some idx }))
    | _, _ => s
  else s

/-! The read-side task rendering of todolist.tsx.  There is no
`buildSafeTree` in the source: `rootItems` filters the module's tasks by
`!i.parentId` and `renderTodoItem` recursively renders the children found
by filtering on `parentId`, with no visited or duplicate guard.  The
functions below compute the ids emitted by that recursion, in render order;
fuel bounds the recursion depth and `none` means the recursion would not
return. -/

/-- The subtree rendered by `renderTodoItem(item)`: the item's id followed
by the rendered subtrees of the children found by filtering on
`parentId`. -/
def renderSubtreeF : Nat → List TodoItem → TodoItem → Option (List String)
  | 0, _, _ => none
  | n + 1, items, item =>
    match (items.filter (fun i => i.parentId = some item.id)).mapM
        (fun c => renderSubtreeF n items c) with
    | none => none
    | some ls => some (item.id :: ls.flatten)

/-- The ids rendered for a task collection: the subtrees of
`rootItems = items.filter(i => !i.parentId)` in order. -/
def renderedIdsF (n : Nat) (items : List TodoItem) : Option (List String) :=
  match (items.filter (fun i => i.parentId = none)).mapM
      (fun c => renderSubtreeF n items c) with
  | none => none
  | some ls => some ls.flatten

/-! Claim-side notions used to state the theorems: the id/parent projection
of a collection, the descendant relation it induces, forests via a
child-decreasing measure, and the explicit ancestor chain of a task. -/

/-- The id and parent projection of a task collection.  The operations
above never change ids or parent links except where a claim says so, and
descendant/ancestor notions depend only on this projection. -/
def shape (l : List TodoItem) : List (String × Option String) :=
  l.map (fun t => (t.id, t.parentId))

/-- The ids of a collection. -/
def idsOf (l : List TodoItem) : List String :=
  l.map (fun t => t.id)

/-- Strict descendant over a shape: `IsDescS sh r x` holds when the task
with id `x` is reachable from `r` by following parent links upward, i.e.
`x` lies in the descendant closure of `r` (excluding `r` itself unless the
links are cyclic). -/
inductive IsDescS (sh : List (String × Option String)) (r : String) : String → Prop
  | child (x : String) : (x, some r) ∈ sh → IsDescS sh r x
  | step (x p : String) : (x, some p) ∈ sh → IsDescS sh r p → IsDescS sh r x

/-- A child-decreasing measure, witnessing that the parent links of a
collection form a forest (no cycles, no self-references): every task's
measure is strictly below the measure of its parent id. -/
def childMeasureB (m : String → Nat) (tasks : List TodoItem) : Bool :=
  tasks.all (fun t =>
    match t.parentId with
    | none => true
    | some p => m t.id < m p)

/-- The ancestor chain of a task, checked against the collection: the walk
from `x` follows `parentId` through `find?` lookups and the chain lists the
successive parent ids; it ends when the current task is absent from the
collection or has no parent. -/
def ancChainOk (tasks : List TodoItem) : String → List String → Bool
  | x, [] =>
    match tasks.find? (fun t => t.id = x) with
    | none => true
    | some t => t.parentId.isNone
  | x, p :: rest =>
    match tasks.find? (fun t => t.id = x) with
    | none => false
    | some t => t.parentId == some p && ancChainOk tasks p rest

/-- The upward walk of the claim for completion, stated in the claim's own
words over an explicit ancestor chain: for each ancestor in turn, set it
done only if every one of its direct children is already done, and stop at
the first ancestor failing this test. -/
def specWalkTrue : List String → List TodoItem → List TodoItem
  | [], todos => todos
  | p :: rest, todos =>
    if (todos.filter (fun t => t.parentId = some p)).all (fun s => s.done) then
      specWalkTrue rest (updateItemDone p true todos)
    else todos

/-- The down-phase of the claim: the result sets `done := st` exactly on
the task itself and its descendant closure, position by position. -/
def CascadedDown (st : Bool) (id : String) (tasks r : List TodoItem) : Prop :=
  List.Forall₂ (fun u v =>
    ((u.id = id ∨ IsDescS (shape tasks) id u.id) → v = { u with done := st }) ∧
    (¬ (u.id = id ∨ IsDescS (shape tasks) id u.id) → v = u)) tasks r

/-- Contiguity of the structured order indices: the multiset of
`orderIndex` values of the active list is exactly `{0, …, n-1}`. -/
def orderContiguous (items : List MItem) : Prop :=
  (items.map (fun m => m.orderIndex)).Perm ((List.range items.length).map some)

instance orderContiguousDec (items : List MItem) : Decidable (orderContiguous items) := by
  unfold orderContiguous
  infer_instance

/-! Concrete fixtures used by counterexamples and witnesses. -/

/-- A persisted two-task parent cycle: `a.parentId = b`, `b.parentId = a`. -/
def cycTasks : List TodoItem :=
  [{ id := "a", parentId := some "b" }, { id := "b", parentId := some "a" }]

/-- A structured-view workspace holding three modules created by drop
gestures, with order indices 0, 1, 2. -/
def c1State : WState :=
  onDropCreate "c" MType.todo 0 0
    (onDropCreate "b" MType.clock 0 0
      (onDropCreate "a" MType.notepad 0 0 { viewMode := VMode.structured }))

/-- A task-list module and a task collection owning one task of it. -/
def c4Module : MItem := { i := "m1", type := MType.todo }

/-- The task owned by module m1. -/
def c4Todos : List TodoItem := [{ id := "t1", originModuleId := "m1" }]

/-- The workspace around the module of `c4Module`. -/
def c4State : WState :=
  { viewMode := VMode.free, items := [c4Module], storedItemsFree := [c4Module],
    globalTodos := c4Todos }

/-- A free-view workspace after dropping a clock and then a notepad; the
structured store holds the mirror records with order indices 0 and 1. -/
def c6State : WState :=
  onDropCreate "b" MType.notepad 5 5
    (onDropCreate "a" MType.clock 1 1 { viewMode := VMode.free })

/-- A free-view workspace with one task-list module whose single task holds
one image attachment. -/
def c7State : WState :=
  { viewMode := VMode.free,
    items := [{ i := "m", type := MType.todo }],
    storedItemsFree := [{ i := "m", type := MType.todo }],
    storedItemsStructured := [{ i := "m", type := MType.todo, orderIndex := some 0 }],
    globalTodos := [{ id := "t", originModuleId := "m",
                      images := [{ id := "i1", path := "p1.png", isCover := true }] }] }

/-- A collection with a single task whose parent id names no task. -/
def c9Tasks : List TodoItem :=
  [{ id := "t1", originModuleId := "m1", parentId := some "ghost" }]

/-- A free-view workspace reached by: drop a clock, minimize it, drop a
second clock (allowed, the active list has none), restore the first. -/
def c10State : WState :=
  restoreModule "k1" none none
    (onDropCreate "k2" MType.clock 0 0
      (minimizeModule "k1"
        (onDropCreate "k1" MType.clock 0 0 { viewMode := VMode.free })))

/-- C1 counterexample: in the structured view, the state reached by three
drop-creates has contiguous order indices 0, 1, 2, but minimizing the
middle module leaves indices {0, 2} — a gap, so the contiguity invariant
does not survive a minimize commit. -/
theorem c1_counterexample :
    c1State.viewMode = VMode.structured ∧
    orderContiguous c1State.items ∧
    ¬ orderContiguous (minimizeModule "b" c1State).items := by
  refine ⟨rfl, by decide, by decide⟩

/-- C3 counterexample: for the persisted two-task parent cycle, the
read-side reconstruction renders no task at all — the root filter
`!i.parentId` excludes both, so neither A nor B appears as a root task
(the claim expected both to be demoted to roots). -/
theorem c3_counterexample :
    renderedIdsF 3 cycTasks = some [] ∧
    (cycTasks.filter (fun t => t.parentId = none)).map (fun t => t.id) = [] := by
  exact ⟨rfl, rfl⟩

/-- C4: evaluating the deletion guard of the source on a task-list module
that owns a task.  The dangling-else association makes `hasContent` false
for every non-notepad, non-stickynote kind, so the module is deleted
immediately even though a task with its `originModuleId` exists — the
code contradicts the intended guard stated in the spec. -/
theorem c4_guard_evaluation :
    c4Todos.any (fun t => t.originModuleId = c4Module.i) = true ∧
    requestDeleteHasContent c4Module c4Todos = false ∧
    requestDeleteAction "m1" c4State = DeleteAction.immediate := by
  refine ⟨rfl, rfl, by decide⟩

/-- C6 counterexample: toggling `c6State` to structured view.  The target
mode's stored records give module a order index 0 and module b order
index 1, but the merge lets the leaving list's (absent) `orderIndex`
annotations win, so the layout falls back to kind grouping and commits
b before a — the positional field does not come from the target mode's
own record as claimed. -/
theorem c6_counterexample :
    (storedItems c6State VMode.structured).map (fun m => (m.i, m.orderIndex)) =
      [("a", some 0), ("b", some 1)] ∧
    (toggleViewMode c6State).items.map (fun m => (m.i, m.orderIndex)) =
      [("b", some 0), ("a", some 1)] := by
  exact ⟨rfl, by decide⟩

/-- C7 counterexample: confirmed deletion of module m destroys its task t,
which references the attachment p1.png, yet the trace of attachment-store
delete calls made by `performDelete` is empty — the destroyed task's
attachment is orphaned, contradicting the claim. -/
theorem c7_counterexample :
    (c7State.globalTodos.filter (fun t => t.originModuleId = "m")).flatMap
      (fun t => t.images.map (fun img => img.path)) = ["p1.png"] ∧
    (performDelete "m" c7State).1.globalTodos = [] ∧
    (performDelete "m" c7State).2 = [] := by
  refine ⟨rfl, by decide, rfl⟩

/-- C9 counterexample: the id ghost names no task in `c9Tasks`, yet
`deleteTodo("ghost")` removes the task t1 whose dangling `parentId`
references it — the operation on a missing id is not a no-op. -/
theorem c9_counterexample :
    c9Tasks.all (fun t => t.id ≠ "ghost") = true ∧
    deleteTodoF 2 "ghost" c9Tasks = some ([], []) ∧
    c9Tasks ≠ [] := by
  refine ⟨rfl, rfl, by decide⟩

/-- C10 counterexample: the two-clock state is reachable — create a clock,
minimize it (the toolbar re-enables), create a second clock, restore the
first — after which the active list holds two clock modules, so the
claimed uniqueness is not an invariant. -/
theorem c10_counterexample :
    (c10State.items.filter (fun m => m.type = MType.clock)).length = 2 := by
  decide

/-! Small algebra of the workspace state setters. -/

theorem otherMode_ne (m : VMode) : otherMode m ≠ m := by
  cases m <;> simp [otherMode]

@[simp] theorem items_setStoredItems (s : WState) (m : VMode) (l : List MItem) :
    (setStoredItems s m l).items = s.items := by
  cases m <;> rfl

@[simp] theorem items_setStoredMin (s : WState) (m : VMode) (l : List MItem) :
    (setStoredMin s m l).items = s.items := by
  cases m <;> rfl

@[simp] theorem items_setItemsCur (s : WState) (l : List MItem) :
    (setItemsCur s l).items = l := by
  simp [setItemsCur]

@[simp] theorem items_setMinimizedCur (s : WState) (l : List MItem) :
    (setMinimizedCur s l).items = s.items := by
  simp [setMinimizedCur]

@[simp] theorem minimized_setStoredItems (s : WState) (m : VMode) (l : List MItem) :
    (setStoredItems s m l).minimizedItems = s.minimizedItems := by
  cases m <;> rfl

@[simp] theorem minimized_setStoredMin (s : WState) (m : VMode) (l : List MItem) :
    (setStoredMin s m l).minimizedItems = s.minimizedItems := by
  cases m <;> rfl

@[simp] theorem minimized_setItemsCur (s : WState) (l : List MItem) :
    (setItemsCur s l).minimizedItems = s.minimizedItems := by
  simp [setItemsCur]

@[simp] theorem minimized_setMinimizedCur (s : WState) (l : List MItem) :
    (setMinimizedCur s l).minimizedItems = l := by
  simp [setMinimizedCur]

@[simp] theorem globalTodos_setStoredItems (s : WState) (m : VMode) (l : List MItem) :
    (setStoredItems s m l).globalTodos = s.globalTodos := by
  cases m <;> rfl

@[simp] theorem globalTodos_setStoredMin (s : WState) (m : VMode) (l : List MItem) :
    (setStoredMin s m l).globalTodos = s.globalTodos := by
  cases m <;> rfl

@[simp] theorem globalTodos_setItemsCur (s : WState) (l : List MItem) :
    (setItemsCur s l).globalTodos = s.globalTodos := by
  simp [setItemsCur]

@[simp] theorem globalTodos_setMinimizedCur (s : WState) (l : List MItem) :
    (setMinimizedCur s l).globalTodos = s.globalTodos := by
  simp [setMinimizedCur]

@[simp] theorem viewMode_setStoredItems (s : WState) (m : VMode) (l : List MItem) :
    (setStoredItems s m l).viewMode = s.viewMode := by
  cases m <;> rfl

@[simp] theorem viewMode_setStoredMin (s : WState) (m : VMode) (l : List MItem) :
    (setStoredMin s m l).viewMode = s.viewMode := by
  cases m <;> rfl

@[simp] theorem viewMode_setItemsCur (s : WState) (l : List MItem) :
    (setItemsCur s l).viewMode = s.viewMode := by
  simp [setItemsCur]

@[simp] theorem viewMode_setMinimizedCur (s : WState) (l : List MItem) :
    (setMinimizedCur s l).viewMode = s.viewMode := by
  simp [setMinimizedCur]

@[simp] theorem storedItems_setStoredItems_same (s : WState) (m : VMode) (l : List MItem) :
    storedItems (setStoredItems s m l) m = l := by
  cases m <;> rfl

theorem storedItems_setStoredItems_other (s : WState) {m m' : VMode} (l : List MItem)
    (h : m' ≠ m) : storedItems (setStoredItems s m' l) m = storedItems s m := by
  cases m <;> cases m' <;> simp_all <;> rfl

@[simp] theorem storedItems_setStoredMin (s : WState) (m m' : VMode) (l : List MItem) :
    storedItems (setStoredMin s m' l) m = storedItems s m := by
  cases m <;> cases m' <;> rfl

@[simp] theorem storedMin_setStoredMin_same (s : WState) (m : VMode) (l : List MItem) :
    storedMin (setStoredMin s m l) m = l := by
  cases m <;> rfl

theorem storedMin_setStoredMin_other (s : WState) {m m' : VMode} (l : List MItem)
    (h : m' ≠ m) : storedMin (setStoredMin s m' l) m = storedMin s m := by
  cases m <;> cases m' <;> simp_all <;> rfl

@[simp] theorem storedMin_setStoredItems (s : WState) (m m' : VMode) (l : List MItem) :
    storedMin (setStoredItems s m' l) m = storedMin s m := by
  cases m <;> cases m' <;> rfl

theorem storedItems_setItemsCur (s : WState) {m : VMode} (l : List MItem)
    (h : s.viewMode ≠ m) : storedItems (setItemsCur s l) m = storedItems s m := by
  unfold setItemsCur
  rw [storedItems_setStoredItems_other _ _ h]
  cases m <;> rfl

theorem storedMin_setItemsCur (s : WState) (m : VMode) (l : List MItem) :
    storedMin (setItemsCur s l) m = storedMin s m := by
  unfold setItemsCur
  rw [storedMin_setStoredItems]
  cases m <;> rfl

theorem storedItems_setMinimizedCur (s : WState) (m : VMode) (l : List MItem) :
    storedItems (setMinimizedCur s l) m = storedItems s m := by
  unfold setMinimizedCur
  rw [storedItems_setStoredMin]
  cases m <;> rfl

theorem storedMin_setMinimizedCur (s : WState) {m : VMode} (l : List MItem)
    (h : s.viewMode ≠ m) : storedMin (setMinimizedCur s l) m = storedMin s m := by
  unfold setMinimizedCur
  rw [storedMin_setStoredMin_other _ _ h]
  cases m <;> rfl

@[simp] theorem items_restoreMirror (id : String) (s : WState) :
    (restoreMirror id s).items = s.items := by
  unfold restoreMirror
  cases h : (storedMin s (otherMode s.viewMode)).find? (fun i => i.i = id) <;> simp [h]

/-! Order-index arithmetic. -/

theorem foldl_max_range (n a : Nat) :
    List.foldl Nat.max a (List.range (n + 1)) = Nat.max a n := by
  induction n generalizing a with
  | zero => simp [List.range_succ]
  | succ k ih =>
    rw [List.range_succ, List.foldl_append, ih]
    simp [Nat.max_assoc, Nat.max_eq_right (Nat.le_succ k)]

instance : RightCommutative Nat.max :=
  ⟨fun b a c => Nat.max_right_comm b a c⟩

theorem maxOrderIndex_of_contiguous {items : List MItem} (h : orderContiguous items)
    (hne : items ≠ []) : maxOrderIndex items = items.length - 1 := by
  unfold maxOrderIndex
  have hmap : (items.map (fun i => i.orderIndex.getD 0)) =
      ((items.map (fun i => i.orderIndex)).map (fun o => o.getD 0)) := by
    simp [List.map_map]
  have hperm : ((items.map (fun i => i.orderIndex)).map (fun o => o.getD 0)).Perm
      (((List.range items.length).map some).map (fun o => o.getD 0)) := h.map _
  have hsimp : (((List.range items.length).map some).map
      (fun o : Option Nat => o.getD 0)) = List.range items.length := by
    simp [List.map_map, Function.comp_def]
  rw [hmap, hperm.foldl_eq, hsimp]
  obtain ⟨k, hk⟩ : ∃ k, items.length = k + 1 := by
    cases hl : items.length with
    | zero => exact absurd (List.length_eq_zero.mp hl) hne
    | succ k => exact ⟨k, rfl⟩
  rw [hk, foldl_max_range]
  simp

theorem map_orderIndex_assignIdx_aux (l : List MItem) (k : Nat) :
    ((l.mapIdx (fun idx m => { m with orderIndex := some (idx + k) })).map
      (fun m => m.orderIndex)) = (List.range' k l.length).map some := by
  induction l generalizing k with
  | nil => simp
  | cons a l ih =>
    rw [List.mapIdx_cons]
    have harg : (fun i (m : MItem) => { m with orderIndex := some (i + 1 + k) }) =
        (fun i (m : MItem) => { m with orderIndex := some (i + (k + 1)) }) := by
      funext i m
      have : i + 1 + k = i + (k + 1) := by omega
      rw [this]
    simp only [List.map_cons, List.length_cons, List.range'_succ, harg, ih (k + 1)]
    simp

theorem map_orderIndex_assignIdx (l : List MItem) :
    ((l.mapIdx (fun idx m => { m with orderIndex := some idx })).map
      (fun m => m.orderIndex)) = (List.range l.length).map some := by
  have harg : (fun idx (m : MItem) => { m with orderIndex := some idx }) =
      (fun idx (m : MItem) => { m with orderIndex := some (idx + 0) }) := by
    funext idx m
    rw [Nat.add_zero]
  rw [harg, map_orderIndex_assignIdx_aux, List.range_eq_range']

theorem orderContiguous_assignIdx (l : List MItem) :
    orderContiguous (l.mapIdx (fun idx m => { m with orderIndex := some idx })) := by
  unfold orderContiguous
  rw [map_orderIndex_assignIdx]
  have hlen : (l.mapIdx (fun idx m => { m with orderIndex := some idx })).length =
      l.length := by
    simp
  rw [hlen]

theorem orderContiguous_append_next {items : List MItem} (m : MItem)
    (hc : orderContiguous items)
    (hoi : m.orderIndex = some (if 0 < items.length then maxOrderIndex items + 1 else 0)) :
    orderContiguous (items ++ [m]) := by
  unfold orderContiguous at *
  by_cases hne : items = []
  · subst hne
    simp at hoi ⊢
    simp [hoi, List.range_succ]
  · have hlen : 0 < items.length := List.length_pos.mpr hne
    have hmax : maxOrderIndex items = items.length - 1 := maxOrderIndex_of_contiguous hc hne
    have hsucc : items.length - 1 + 1 = items.length := Nat.succ_pred_eq_of_pos hlen
    rw [if_pos hlen, hmax, hsucc] at hoi
    rw [List.map_append, List.length_append]
    simp only [List.map_cons, List.map_nil, List.length_cons, List.length_nil, hoi]
    rw [show items.length + (0 + 1) = items.length + 1 by omega, List.range_succ,
      List.map_append]
    exact hc.append (by simp)

/-- C1: the order-contiguity invariant as claimed does not survive minimize
or delete; this amended statement records what the code guarantees.
A drag-reorder commit reassigns contiguous indices outright; a drop-create
in structured view appends at `max(orderIndex) + 1`, preserving contiguity
when it already holds (likewise a restore); minimize and delete only remove
the module's entry, leaving every other `orderIndex` unchanged, so a gap
remains whenever the removed module's index was not maximal. -/
theorem items_ite (c : Prop) [Decidable c] (a b : WState) :
    (if c then a else b).items = if c then a.items else b.items := by
  split <;> rfl

theorem c1_amended :
    (∀ id s, (minimizeModule id s).items = s.items.filter (fun i => i.i ≠ id)) ∧
    (∀ id s, ((performDelete id s).1).items = s.items.filter (fun i => i.i ≠ id)) ∧
    (∀ uid ty x y s, s.viewMode = VMode.structured →
      s.items.any (fun i => i.i = uid) = false → orderContiguous s.items →
      orderContiguous ((onDropCreate uid ty x y s).items)) ∧
    (∀ id dx dy s, s.viewMode = VMode.structured → orderContiguous s.items →
      orderContiguous ((restoreModule id dx dy s).items)) ∧
    (∀ a b s oldIdx newIdx, a ≠ b →
      (getSortedItems s.items).findIdx? (fun m => m.i = a) = some oldIdx →
      (getSortedItems s.items).findIdx? (fun m => m.i = b) = some newIdx →
      orderContiguous ((handleDragEndStructured a b s).items)) := by
  refine ⟨?_, ?_, ?_, ?_, ?_⟩
  · intro id s
    unfold minimizeModule
    cases h : s.items.find? (fun i => i.i = id) with
    | none =>
      have := List.find?_eq_none.mp h
      simp only at this
      rw [List.filter_eq_self.mpr]
      intro a ha
      simpa using this a ha
    | some item => simp
  · intro id s
    unfold performDelete
    simp
  · intro uid ty x y s hv hdup hc
    by_cases hclock : ty = MType.clock ∧ hasClock s.items
    · unfold onDropCreate
      rw [if_pos hclock]
      exact hc
    · unfold onDropCreate
      rw [if_neg hclock]
      simp only [hdup, Bool.false_eq_true, if_false, hv, reduceIte]
      simp only [items_ite, items_setStoredItems, items_setItemsCur, ite_self]
      exact orderContiguous_append_next _ hc rfl
  · intro id dx dy s hv hc
    unfold restoreModule
    cases h : s.minimizedItems.find? (fun i => i.i = id) with
    | none => exact hc
    | some item =>
      rw [hv]
      simp only [reduceIte]
      by_cases hdup2 : s.items.any (fun i => i.i = id)
      · rw [if_pos hdup2]
        exact hc
      · rw [if_neg hdup2]
        simp only [items_restoreMirror, items_setMinimizedCur, items_setItemsCur]
        exact orderContiguous_append_next _ hc rfl
  · intro a b s oldIdx newIdx hab ha hb
    unfold handleDragEndStructured
    rw [if_pos hab]
    simp only [ha, hb, items_setItemsCur]
    exact orderContiguous_assignIdx _

/-- C1 witness: applying the amended theorem at concrete inputs — creating
a fourth module in the three-module structured state keeps the order
indices contiguous. -/
theorem c1_amended_witness :
    orderContiguous ((onDropCreate "d" MType.events 0 0 c1State).items) :=
  c1_amended.2.2.1 "d" MType.events 0 0 c1State (by decide) (by decide) (by decide)

/-- C10 amended: while a clock module is in the active list (`hasClock`,
which is also the toolbar's disabled flag for the clock tool), a drop
gesture creating a clock is rejected and the whole workspace state —
including both view-mode stores — is returned unchanged.  The uniqueness
itself is not an invariant (see the counterexample). -/
theorem c10_amended (uid : String) (x y : Int) (s : WState)
    (h : hasClock s.items = true) :
    onDropCreate uid MType.clock x y s = s := by
  unfold onDropCreate
  rw [if_pos ⟨rfl, h⟩]

/-- C10 witness: dropping yet another clock on the two-clock state changes
nothing. -/
theorem c10_amended_witness : onDropCreate "z" MType.clock 0 0 c10State = c10State :=
  c10_amended "z" 0 0 c10State (by decide)

/-- C7 amended: `performDelete` removes the module's record from the
current active list and from the other mode's stored active and minimized
lists, leaves the current minimized list untouched, removes every task with
the module's `originModuleId` from the global collection, and performs no
attachment deletion (the trace of attachment-store delete calls is
empty). -/
theorem c7_amended (id : String) (s : WState) :
    (∀ mod ∈ (performDelete id s).1.items, mod.i ≠ id) ∧
    (∀ t ∈ (performDelete id s).1.globalTodos, t.originModuleId ≠ id) ∧
    (∀ mod ∈ storedItems (performDelete id s).1 (otherMode s.viewMode), mod.i ≠ id) ∧
    (∀ mod ∈ storedMin (performDelete id s).1 (otherMode s.viewMode), mod.i ≠ id) ∧
    (performDelete id s).1.minimizedItems = s.minimizedItems ∧
    (performDelete id s).2 = [] := by
  unfold performDelete
  refine ⟨?_, ?_, ?_, ?_, ?_, rfl⟩
  · intro mod hmod
    simp at hmod
    exact hmod.2
  · intro t ht
    simp at ht
    exact ht.2
  · intro mod hmod
    rw [storedItems_setStoredMin, storedItems_setStoredItems_same] at hmod
    simp at hmod
    exact hmod.2
  · intro mod hmod
    rw [storedMin_setStoredMin_same] at hmod
    simp at hmod
    exact hmod.2
  · simp

/-- C7 witness: the amended theorem applied at the concrete one-module
workspace — after deletion no task with the module's origin remains and no
attachment delete was traced. -/
theorem c7_amended_witness :
    (∀ t ∈ (performDelete "m" c7State).1.globalTodos, t.originModuleId ≠ "m") ∧
    (performDelete "m" c7State).2 = [] :=
  ⟨(c7_amended "m" c7State).2.1, (c7_amended "m" c7State).2.2.2.2.2⟩

theorem map_eq_self_of {α : Type} {l : List α} {f : α → α} (h : ∀ a ∈ l, f a = a) :
    l.map f = l := by
  induction l with
  | nil => rfl
  | cons a l ih =>
    rw [List.map_cons, h a (by simp), ih (fun b hb => h b (by simp [hb]))]

/-! Absent-id lemmas for the no-op claims. -/

theorem find?_id_eq_none {tasks : List TodoItem} {id : String}
    (h : tasks.all (fun t => t.id ≠ id) = true) :
    tasks.find? (fun t => t.id = id) = none := by
  rw [List.find?_eq_none]
  intro x hx
  simpa using List.all_eq_true.mp h x hx

theorem updateItemDone_absent {tasks : List TodoItem} {id : String} (d : Bool)
    (h : tasks.all (fun t => t.id ≠ id) = true) :
    updateItemDone id d tasks = tasks := by
  induction tasks with
  | nil => rfl
  | cons t ts ih =>
    simp only [List.all_cons, Bool.and_eq_true] at h
    unfold updateItemDone
    rw [if_neg (by simpa using h.1), ih h.2]

theorem filter_parent_eq_nil {tasks : List TodoItem} {id : String}
    (h : tasks.all (fun t => t.parentId ≠ some id) = true) :
    tasks.filter (fun t => t.parentId = some id) = [] := by
  rw [List.filter_eq_nil_iff]
  intro a ha
  simpa using List.all_eq_true.mp h a ha

theorem getDescendantsF_absent {tasks : List TodoItem} {id : String} (m : Nat)
    (h : tasks.all (fun t => t.parentId ≠ some id) = true) :
    getDescendantsF (m + 1) id tasks = some [] := by
  unfold getDescendantsF
  rw [filter_parent_eq_nil h]
  rfl

/-- C9 amended: an operation naming an id absent from the collection is a
no-op, with the proviso the counterexample forces: `reorderTodo` is a no-op
unconditionally, while `deleteTodo`, `moveTodo` and the `setDone` cascade
are no-ops only when additionally no task's `parentId` dangles onto the
missing id (otherwise they act on that orphan subtree). -/
theorem c9_amended (tasks : List TodoItem) (id target : String) (st : Bool)
    (targetId : Option String) (pos : ReorderPos) (moduleId : String) (n : Nat)
    (hid : tasks.all (fun t => t.id ≠ id) = true) :
    reorderTodo id targetId pos moduleId tasks = tasks ∧
    (tasks.all (fun t => t.parentId ≠ some id) = true → 1 ≤ n →
      deleteTodoF n id tasks = some (tasks, []) ∧
      moveTodoF n id target tasks = some tasks ∧
      updateTodoDoneF n id st tasks = some tasks) := by
  constructor
  · unfold reorderTodo
    rw [find?_id_eq_none hid]
  · intro hd hn
    obtain ⟨m, rfl⟩ : ∃ m, n = m + 1 := ⟨n - 1, by omega⟩
    have hdesc := @getDescendantsF_absent tasks id m hd
    refine ⟨?_, ?_, ?_⟩
    · unfold deleteTodoF
      rw [hdesc]
      simp only [Option.some.injEq, Prod.mk.injEq]
      constructor
      · rw [List.filter_eq_self]
        intro a ha
        have := List.all_eq_true.mp hid a ha
        simp at this ⊢
        exact fun hcontra => this hcontra
      · unfold deleteTodoImagePaths
        rw [find?_id_eq_none hid]
        rfl
    · unfold moveTodoF
      rw [hdesc]
      refine congrArg some (map_eq_self_of ?_)
      intro a ha
      have hne := List.all_eq_true.mp hid a ha
      simp only [decide_eq_true_eq] at hne
      rw [if_neg]
      simpa using hne
    · unfold updateTodoDoneF
      rw [updateItemDone_absent st hid]
      have hmark : markChildrenF (m + 1) st id tasks = some tasks := by
        unfold markChildrenF
        rw [filter_parent_eq_nil hd]
        rfl
      simp only [hmark, find?_id_eq_none hid]
      cases st <;> rfl

/-- C9 witness: the amended theorem at the cyclic two-task collection and
the fresh id zz, which no task carries or references. -/
theorem c9_amended_witness :
    reorderTodo "zz" none ReorderPos.after "mm" cycTasks = cycTasks ∧
    deleteTodoF 1 "zz" cycTasks = some (cycTasks, []) :=
  ⟨(c9_amended cycTasks "zz" "mt" true none ReorderPos.after "mm" 1 (by decide)).1,
   ((c9_amended cycTasks "zz" "mt" true none ReorderPos.after "mm" 1 (by decide)).2
      (by decide) (by decide)).1⟩

/-! Shape invariance and termination of the traversals on forests. -/

theorem shape_updateItemDone (x : String) (d : Bool) (l : List TodoItem) :
    shape (updateItemDone x d l) = shape l := by
  induction l with
  | nil => rfl
  | cons t ts ih =>
    unfold updateItemDone
    split
    · simp [shape]
    · simpa [shape] using ih

/-- The measure condition depends only on the id and parent projection. -/
def shapeMeasB (meas : String → Nat) (sh : List (String × Option String)) : Bool :=
  sh.all (fun pr =>
    match pr.2 with
    | none => true
    | some p => meas pr.1 < meas p)

theorem childMeasureB_eq_shape (meas : String → Nat) (l : List TodoItem) :
    childMeasureB meas l = shapeMeasB meas (shape l) := by
  induction l with
  | nil => rfl
  | cons t ts ih =>
    unfold childMeasureB shapeMeasB shape at ih ⊢
    simp only [List.map_cons, List.all_cons, ih]

theorem childMeasure_spec {meas : String → Nat} {tasks : List TodoItem}
    (h : childMeasureB meas tasks = true) :
    ∀ t ∈ tasks, ∀ p, t.parentId = some p → meas t.id < meas p := by
  intro t ht p hp
  have := List.all_eq_true.mp h t ht
  rw [hp] at this
  simpa using this

theorem markChildrenF_shape :
    ∀ n (st : Bool) (p : String) (l r : List TodoItem),
      markChildrenF n st p l = some r → shape r = shape l := by
  intro n
  induction n with
  | zero => intro st p l r h; exact absurd h (by simp [markChildrenF])
  | succ k ih =>
    intro st p l r h
    unfold markChildrenF at h
    have aux : ∀ (cs : List TodoItem) (acc r : List TodoItem),
        cs.foldlM (fun acc c => markChildrenF k st c.id (updateItemDone c.id st acc)) acc =
          some r → shape r = shape acc := by
      intro cs
      induction cs with
      | nil =>
        intro acc r h
        rw [List.foldlM_nil] at h
        cases h
        rfl
      | cons c cs ihc =>
        intro acc r h
        rw [List.foldlM_cons] at h
        cases hmid : markChildrenF k st c.id (updateItemDone c.id st acc) with
        | none => rw [hmid] at h; exact absurd h (by simp)
        | some mid =>
          rw [hmid] at h
          have h1 := ih st c.id (updateItemDone c.id st acc) mid hmid
          have h2 := ihc mid r h
          rw [h2, h1, shape_updateItemDone]
    exact aux _ l r h

theorem markChildrenF_isSome {meas : String → Nat} :
    ∀ (n : Nat) (st : Bool) (p : String) (l : List TodoItem),
      childMeasureB meas l = true → meas p < n → (markChildrenF n st p l).isSome := by
  intro n
  induction n with
  | zero => intro st p l hm h; omega
  | succ k ih =>
    intro st p l hm hp
    unfold markChildrenF
    have haux : ∀ (cs : List TodoItem), (∀ c ∈ cs, c ∈ l ∧ c.parentId = some p) →
        ∀ (acc : List TodoItem), shape acc = shape l →
        (cs.foldlM (fun acc c => markChildrenF k st c.id (updateItemDone c.id st acc))
          acc).isSome := by
      intro cs hcs
      induction cs with
      | nil =>
        intro acc hacc
        rw [List.foldlM_nil]
        rfl
      | cons c cs ihc =>
        intro acc hacc
        rw [List.foldlM_cons]
        obtain ⟨hcl, hcp⟩ := hcs c (by simp)
        have hlt : meas c.id < meas p := childMeasure_spec hm c hcl p hcp
        have hms : childMeasureB meas (updateItemDone c.id st acc) = true := by
          rw [childMeasureB_eq_shape, shape_updateItemDone, hacc, ← childMeasureB_eq_shape]
          exact hm
        have h1 : (markChildrenF k st c.id (updateItemDone c.id st acc)).isSome :=
          ih st c.id _ hms (by omega)
        obtain ⟨mid, hmid⟩ := Option.isSome_iff_exists.mp h1
        rw [hmid]
        have hmidshape : shape mid = shape l := by
          rw [markChildrenF_shape k st c.id _ mid hmid, shape_updateItemDone, hacc]
        exact ihc (fun d hd => hcs d (by simp [hd])) mid hmidshape
    have hmem : ∀ c ∈ l.filter (fun t => t.parentId = some p),
        c ∈ l ∧ c.parentId = some p := by
      intro c hc
      rw [List.mem_filter] at hc
      refine ⟨hc.1, ?_⟩
      simpa using hc.2
    exact haux _ hmem l rfl

theorem getDescendantsF_isSome {meas : String → Nat} {tasks : List TodoItem}
    (hm : childMeasureB meas tasks = true) :
    ∀ (n : Nat) (root : String), meas root < n → (getDescendantsF n root tasks).isSome := by
  intro n
  induction n with
  | zero => intro root h; omega
  | succ k ih =>
    intro root hroot
    unfold getDescendantsF
    have haux : ∀ (cs : List TodoItem), (∀ c ∈ cs, c ∈ tasks ∧ c.parentId = some root) →
        ((cs.mapM (fun c => getDescendantsF k c.id tasks)).isSome) := by
      intro cs hcs
      induction cs with
      | nil => exact rfl
      | cons c cs ihc =>
        rw [List.mapM_cons]
        obtain ⟨hcl, hcp⟩ := hcs c (by simp)
        have hlt : meas c.id < meas root := childMeasure_spec hm c hcl root hcp
        obtain ⟨l1, hl1⟩ := Option.isSome_iff_exists.mp (ih c.id (by omega))
        obtain ⟨l2, hl2⟩ :=
          Option.isSome_iff_exists.mp (ihc (fun d hd => hcs d (by simp [hd])))
        rw [hl1, hl2]
        rfl
    have hmem : ∀ c ∈ tasks.filter (fun i => i.parentId = some root),
        c ∈ tasks ∧ c.parentId = some root := by
      intro c hc
      rw [List.mem_filter] at hc
      refine ⟨hc.1, ?_⟩
      simpa using hc.2
    obtain ⟨ls, hls⟩ := Option.isSome_iff_exists.mp (haux _ hmem)
    show (match mapM (fun (c : TodoItem) => getDescendantsF k c.id tasks)
        (tasks.filter (fun (i : TodoItem) => i.parentId = some root)) with
      | none => (none : Option (List String))
      | some ls => some ((tasks.filter (fun (i : TodoItem) => i.parentId = some root)).map
          (fun (c : TodoItem) => c.id) ++ ls.flatten)).isSome = true
    rw [hls]
    rfl

theorem find?_map_parentId_of_shape {l1 l2 : List TodoItem} (h : shape l1 = shape l2)
    (x : String) :
    (l1.find? (fun t => t.id = x)).map (fun t => t.parentId) =
      (l2.find? (fun t => t.id = x)).map (fun t => t.parentId) := by
  induction l1 generalizing l2 with
  | nil =>
    have : l2 = [] := by
      unfold shape at h
      exact List.map_eq_nil_iff.mp h.symm
    rw [this]
  | cons t ts ih =>
    cases l2 with
    | nil => exact absurd h (by simp [shape])
    | cons u us =>
      unfold shape at h
      simp only [List.map_cons, List.cons.injEq, Prod.mk.injEq] at h
      obtain ⟨⟨hid, hpar⟩, hrest⟩ := h
      rw [List.find?_cons, List.find?_cons]
      by_cases hx : t.id = x
      · have hux : u.id = x := by rw [← hid]; exact hx
        rw [decide_eq_true hx, decide_eq_true hux]
        simp [hpar]
      · have hux : ¬ (u.id = x) := by rw [← hid]; exact hx
        rw [decide_eq_false hx, decide_eq_false hux]
        exact ih hrest

theorem ancChainOk_of_shape {l1 l2 : List TodoItem} (h : shape l1 = shape l2) :
    ∀ (chain : List String) (x : String), ancChainOk l1 x chain = ancChainOk l2 x chain := by
  intro chain
  induction chain with
  | nil =>
    intro x
    have hf := find?_map_parentId_of_shape h x
    unfold ancChainOk
    cases hf1 : l1.find? (fun t => t.id = x) with
    | none =>
      rw [hf1] at hf
      cases hf2 : l2.find? (fun t => t.id = x) with
      | none => rfl
      | some u => rw [hf2] at hf; exact absurd hf (by simp)
    | some t =>
      rw [hf1] at hf
      cases hf2 : l2.find? (fun t => t.id = x) with
      | none => rw [hf2] at hf; exact absurd hf (by simp)
      | some u =>
        rw [hf2] at hf
        simp only [Option.map_some', Option.some.injEq] at hf
        simp [hf]
  | cons p rest ih =>
    intro x
    have hf := find?_map_parentId_of_shape h x
    unfold ancChainOk
    cases hf1 : l1.find? (fun t => t.id = x) with
    | none =>
      rw [hf1] at hf
      cases hf2 : l2.find? (fun t => t.id = x) with
      | none => rfl
      | some u => rw [hf2] at hf; exact absurd hf (by simp)
    | some t =>
      rw [hf1] at hf
      cases hf2 : l2.find? (fun t => t.id = x) with
      | none => rw [hf2] at hf; exact absurd hf (by simp)
      | some u =>
        rw [hf2] at hf
        simp only [Option.map_some', Option.some.injEq] at hf
        show (t.parentId == some p && ancChainOk l1 p rest) =
          (u.parentId == some p && ancChainOk l2 p rest)
        rw [hf, ih p]

theorem forceUpF_chain :
    ∀ (chain : List String) (x : String) (l : List TodoItem) (n : Nat),
      ancChainOk l x chain = true → chain.length ≤ n →
      forceUpF n (l.find? (fun t => t.id = x)) l =
        some (chain.foldl (fun acc p => updateItemDone p false acc) l) := by
  intro chain
  induction chain with
  | nil =>
    intro x l n hok hn
    unfold ancChainOk at hok
    cases hf : l.find? (fun t => t.id = x) with
    | none => cases n <;> rfl
    | some t =>
      rw [hf] at hok
      have hpn : t.parentId = none := Option.isNone_iff_eq_none.mp (by simpa using hok)
      show forceUpF n (some t) l = some l
      cases n <;> simp [forceUpF, hpn]
  | cons p rest ih =>
    intro x l n hok hn
    unfold ancChainOk at hok
    cases hf : l.find? (fun t => t.id = x) with
    | none => rw [hf] at hok; exact absurd hok (by simp)
    | some t =>
      rw [hf] at hok
      rw [Bool.and_eq_true] at hok
      have hpar : t.parentId = some p := by simpa using hok.1
      obtain ⟨m, rfl⟩ : ∃ m, n = m + 1 := by
        cases n with
        | zero => simp at hn
        | succ m => exact ⟨m, rfl⟩
      show forceUpF (m + 1) (some t) l = _
      unfold forceUpF
      rw [hpar]
      have hshape : shape (updateItemDone p false l) = shape l := shape_updateItemDone p false l
      have hok2 : ancChainOk (updateItemDone p false l) p rest = true := by
        rw [ancChainOk_of_shape hshape rest p]
        exact hok.2
      rw [List.foldl_cons]
      exact ih p (updateItemDone p false l) m hok2 (by simpa using hn)

theorem bubbleUpF_chain :
    ∀ (chain : List String) (x : String) (l : List TodoItem) (n : Nat),
      ancChainOk l x chain = true → chain.length ≤ n →
      bubbleUpF n (l.find? (fun t => t.id = x)) l = some (specWalkTrue chain l) := by
  intro chain
  induction chain with
  | nil =>
    intro x l n hok hn
    unfold ancChainOk at hok
    cases hf : l.find? (fun t => t.id = x) with
    | none => cases n <;> rfl
    | some t =>
      rw [hf] at hok
      have hpn : t.parentId = none := Option.isNone_iff_eq_none.mp (by simpa using hok)
      show bubbleUpF n (some t) l = some (specWalkTrue [] l)
      cases n <;> simp [bubbleUpF, specWalkTrue, hpn]
  | cons p rest ih =>
    intro x l n hok hn
    unfold ancChainOk at hok
    cases hf : l.find? (fun t => t.id = x) with
    | none => rw [hf] at hok; exact absurd hok (by simp)
    | some t =>
      rw [hf] at hok
      rw [Bool.and_eq_true] at hok
      have hpar : t.parentId = some p := by simpa using hok.1
      obtain ⟨m, rfl⟩ : ∃ m, n = m + 1 := by
        cases n with
        | zero => simp at hn
        | succ m => exact ⟨m, rfl⟩
      show bubbleUpF (m + 1) (some t) l = some (specWalkTrue (p :: rest) l)
      unfold bubbleUpF
      rw [hpar]
      show (if ((l.filter (fun w => w.parentId = some p)).all (fun s => s.done)) = true then
          bubbleUpF m ((updateItemDone p true l).find? (fun w => w.id = p))
            (updateItemDone p true l)
        else some l) = some (specWalkTrue (p :: rest) l)
      unfold specWalkTrue
      by_cases hall : ((l.filter (fun w => w.parentId = some p)).all (fun s => s.done)) = true
      · rw [if_pos hall, if_pos hall]
        have hshape : shape (updateItemDone p true l) = shape l := shape_updateItemDone p true l
        have hok2 : ancChainOk (updateItemDone p true l) p rest = true := by
          rw [ancChainOk_of_shape hshape rest p]
          exact hok.2
        exact ih p (updateItemDone p true l) m hok2 (by simpa using hn)
      · rw [if_neg hall, if_neg hall]

/-- C8 counterexample: on the two-task parent cycle, the descendant
traversal used by `deleteTodo` (and `moveTodo`) never returns — no amount
of fuel completes it, because `getDescendants` revisits a and b forever
with no visited-set guard. -/
theorem getDescendantsF_succ_eq (n : Nat) (root : String) (tasks : List TodoItem) :
    getDescendantsF (n + 1) root tasks =
      match (tasks.filter (fun i => i.parentId = some root)).mapM
          (fun c => getDescendantsF n c.id tasks) with
      | none => none
      | some ls => some ((tasks.filter (fun i => i.parentId = some root)).map
          (fun c => c.id) ++ ls.flatten) := rfl

theorem c8_counterexample :
    ¬ ∃ n, (deleteTodoF n "a" cycTasks).isSome := by
  have aux : ∀ k, getDescendantsF k "a" cycTasks = none ∧
      getDescendantsF k "b" cycTasks = none := by
    intro k
    induction k with
    | zero => exact ⟨rfl, rfl⟩
    | succ k ih =>
      constructor
      · show getDescendantsF (k + 1) "a" cycTasks = none
        rw [getDescendantsF_succ_eq]
        have hfil : cycTasks.filter (fun i => i.parentId = some "a") =
            [{ id := "b", parentId := some "a" }] := by decide
        rw [hfil]
        simp only [List.mapM_cons, List.mapM_nil, ih.1, ih.2]
        rfl
      · show getDescendantsF (k + 1) "b" cycTasks = none
        rw [getDescendantsF_succ_eq]
        have hfil : cycTasks.filter (fun i => i.parentId = some "b") =
            [{ id := "a", parentId := some "b" }] := by decide
        rw [hfil]
        simp only [List.mapM_cons, List.mapM_nil, ih.1, ih.2]
        rfl
  rintro ⟨n, hn⟩
  unfold deleteTodoF at hn
  rw [(aux n).1] at hn
  exact absurd hn (by simp)

/-- C8 amended: the task operations are total on collections whose parent
links admit a child-decreasing measure (i.e. form a forest, dangling
references included): with fuel above the measure of the target id and at
least the ancestor-chain length, the descendant collection, deletion, move
and the setDone cascade all return.  On cyclic collections the descendant
traversal diverges (see the counterexample); `reorderTodo` alone is a total
function with no recursion. -/
theorem c8_amended (tasks : List TodoItem) (meas : String → Nat) (id target : String)
    (st : Bool) (chain : List String) (n : Nat)
    (hm : childMeasureB meas tasks = true)
    (hfuel : meas id < n)
    (hchain : ancChainOk tasks id chain = true)
    (hclen : chain.length ≤ n) :
    (getDescendantsF n id tasks).isSome ∧
    (deleteTodoF n id tasks).isSome ∧
    (moveTodoF n id target tasks).isSome ∧
    (updateTodoDoneF n id st tasks).isSome := by
  have hdesc := getDescendantsF_isSome hm n id hfuel
  obtain ⟨ds, hds⟩ := Option.isSome_iff_exists.mp hdesc
  refine ⟨hdesc, ?_, ?_, ?_⟩
  · unfold deleteTodoF
    rw [hds]
    rfl
  · unfold moveTodoF
    rw [hds]
    rfl
  · unfold updateTodoDoneF
    have hm1 : childMeasureB meas (updateItemDone id st tasks) = true := by
      rw [childMeasureB_eq_shape, shape_updateItemDone, ← childMeasureB_eq_shape]
      exact hm
    obtain ⟨t2, ht2⟩ := Option.isSome_iff_exists.mp
      (markChildrenF_isSome n st id (updateItemDone id st tasks) hm1 hfuel)
    simp only [ht2]
    have hshape2 : shape t2 = shape tasks := by
      rw [markChildrenF_shape n st id _ t2 ht2, shape_updateItemDone]
    have hchain2 : ancChainOk t2 id chain = true := by
      rw [ancChainOk_of_shape hshape2 chain id]
      exact hchain
    cases st
    · simp only [Bool.false_eq_true, if_false]
      rw [forceUpF_chain chain id t2 n hchain2 hclen]
      rfl
    · simp only [if_true]
      rw [bubbleUpF_chain chain id t2 n hchain2 hclen]
      rfl

/-- C8 witness: the amended theorem at the five-task forest, measured by
depth, for the grandchild g1 whose ancestor chain is c1, r. -/
theorem c8_amended_witness :
    (deleteTodoF 6 "g1" [
      { id := "r", originModuleId := "m" },
      { id := "c1", parentId := some "r", originModuleId := "m" },
      { id := "c2", parentId := some "r", originModuleId := "m" },
      { id := "g1", parentId := some "c1", originModuleId := "m" },
      { id := "g2", parentId := some "c2", originModuleId := "m" }]).isSome :=
  (c8_amended _ (fun s => if s = "r" then 2 else if s = "c1" then 1 else if s = "c2" then 1
      else 0)
    "g1" "m2" true ["c1", "r"] 6 (by decide) (by decide) (by decide) (by decide)).2.1

/-! Decomposition of monadic maps over Option, for the rendering claims. -/

theorem mapM_some_of_mem {α β : Type} {f : α → Option β} :
    ∀ {cs : List α} {ls : List β}, cs.mapM f = some ls → ∀ c ∈ cs, ∃ lc, f c = some lc := by
  intro cs
  induction cs with
  | nil => intro ls h c hc; exact absurd hc (by simp)
  | cons a as ih =>
    intro ls h c hc
    rw [List.mapM_cons] at h
    cases hfa : f a with
    | none => rw [hfa] at h; exact absurd h (by simp)
    | some b =>
      rw [hfa] at h
      cases hrest : as.mapM f with
      | none => rw [hrest] at h; exact absurd h (by simp)
      | some bs =>
        rcases List.mem_cons.mp hc with rfl | hc2
        · exact ⟨b, hfa⟩
        · exact ih hrest c hc2

theorem mapM_flatten_mem {α β : Type} {f : α → Option (List β)} :
    ∀ {cs : List α} {ls : List (List β)}, cs.mapM f = some ls → ∀ x ∈ ls.flatten,
      ∃ c ∈ cs, ∃ lc, f c = some lc ∧ x ∈ lc := by
  intro cs
  induction cs with
  | nil =>
    intro ls h x hx
    cases h
    exact absurd hx (by simp)
  | cons a as ih =>
    intro ls h x hx
    rw [List.mapM_cons] at h
    cases hfa : f a with
    | none => rw [hfa] at h; exact absurd h (by simp)
    | some b =>
      rw [hfa] at h
      cases hrest : as.mapM f with
      | none => rw [hrest] at h; exact absurd h (by simp)
      | some bs =>
        rw [hrest] at h
        have : ls = b :: bs := by
          simpa using h.symm
        subst this
        rw [List.flatten_cons] at hx
        rcases List.mem_append.mp hx with hxb | hxbs
        · exact ⟨a, by simp, b, hfa, hxb⟩
        · obtain ⟨c, hc, lc, hlc, hxlc⟩ := ih hrest x hxbs
          exact ⟨c, by simp [hc], lc, hlc, hxlc⟩

theorem mapM_eq_none_of_mem {α β : Type} {f : α → Option β} :
    ∀ {cs : List α} {c : α}, c ∈ cs → f c = none → cs.mapM f = none := by
  intro cs
  induction cs with
  | nil => intro c hc; exact absurd hc (by simp)
  | cons a as ih =>
    intro c hc hfc
    rw [List.mapM_cons]
    rcases List.mem_cons.mp hc with rfl | hc2
    · rw [hfc]; rfl
    · cases hfa : f a with
      | none => rfl
      | some b => rw [ih hc2 hfc]; rfl

theorem renderSubtreeF_succ_eq (n : Nat) (items : List TodoItem) (item : TodoItem) :
    renderSubtreeF (n + 1) items item =
      match (items.filter (fun i => i.parentId = some item.id)).mapM
          (fun c => renderSubtreeF n items c) with
      | none => none
      | some ls => some (item.id :: ls.flatten) := rfl

theorem nodup_id_inj {tasks : List TodoItem} (hnd : (idsOf tasks).Nodup)
    {u v : TodoItem} (hu : u ∈ tasks) (hv : v ∈ tasks) (h : u.id = v.id) : u = v :=
  List.inj_on_of_nodup_map hnd hu hv h

theorem renderedIdsF_eq (n : Nat) (tasks : List TodoItem) :
    renderedIdsF n tasks =
      match (tasks.filter (fun i => i.parentId = none)).mapM
          (fun c => renderSubtreeF n tasks c) with
      | none => none
      | some ls => some ls.flatten := rfl

theorem renderSubtreeF_not_mem_missing {tasks : List TodoItem} {t : TodoItem} {p : String}
    (hnd : (idsOf tasks).Nodup) (ht : t ∈ tasks) (hpar : t.parentId = some p)
    (hmiss : ∀ w ∈ tasks, w.id ≠ p) :
    ∀ (n : Nat) (u : TodoItem) (l : List String), u ∈ tasks →
      (u.parentId = none ∨ ∃ w ∈ tasks, u.parentId = some w.id) →
      renderSubtreeF n tasks u = some l → t.id ∉ l := by
  intro n
  induction n with
  | zero =>
    intro u l hu hup h
    exact absurd h (by simp [renderSubtreeF])
  | succ k ih =>
    intro u l hu hup h
    rw [renderSubtreeF_succ_eq] at h
    cases hmap : (tasks.filter (fun i => i.parentId = some u.id)).mapM
        (fun c => renderSubtreeF k tasks c) with
    | none => rw [hmap] at h; exact absurd h (by simp)
    | some ls =>
      rw [hmap] at h
      have hl : l = u.id :: ls.flatten := by simpa using h.symm
      subst hl
      intro hmem
      rcases List.mem_cons.mp hmem with heq | hflat
      · have hut : u = t := nodup_id_inj hnd hu ht heq.symm
        subst hut
        rcases hup with h0 | ⟨w, hw, hweq⟩
        · rw [hpar] at h0
          exact absurd h0 (by simp)
        · rw [hpar] at hweq
          exact hmiss w hw (Option.some.inj hweq).symm
      · obtain ⟨c, hc, lc, hlc, hxlc⟩ := mapM_flatten_mem hmap t.id hflat
        have hcmem := List.mem_filter.mp hc
        exact ih c lc hcmem.1 (Or.inr ⟨u, hu, by simpa using hcmem.2⟩) hlc hxlc

theorem renderSubtreeF_selfref_none {tasks : List TodoItem} {t : TodoItem}
    (ht : t ∈ tasks) (hpar : t.parentId = some t.id) :
    ∀ n, renderSubtreeF n tasks t = none := by
  intro n
  induction n with
  | zero => rfl
  | succ k ih =>
    rw [renderSubtreeF_succ_eq]
    have hmem : t ∈ tasks.filter (fun i => i.parentId = some t.id) :=
      List.mem_filter.mpr ⟨ht, by simp [hpar]⟩
    rw [mapM_eq_none_of_mem hmem ih]

theorem renderSubtreeF_not_mem_selfref {tasks : List TodoItem} {t : TodoItem}
    (hnd : (idsOf tasks).Nodup) (ht : t ∈ tasks) (hpar : t.parentId = some t.id) :
    ∀ (n : Nat) (u : TodoItem) (l : List String), u ∈ tasks →
      renderSubtreeF n tasks u = some l → t.id ∉ l := by
  intro n
  induction n with
  | zero =>
    intro u l hu h
    exact absurd h (by simp [renderSubtreeF])
  | succ k ih =>
    intro u l hu h
    have hnone := renderSubtreeF_selfref_none ht hpar
    rw [renderSubtreeF_succ_eq] at h
    cases hmap : (tasks.filter (fun i => i.parentId = some u.id)).mapM
        (fun c => renderSubtreeF k tasks c) with
    | none => rw [hmap] at h; exact absurd h (by simp)
    | some ls =>
      rw [hmap] at h
      have hl : l = u.id :: ls.flatten := by simpa using h.symm
      subst hl
      intro hmem
      rcases List.mem_cons.mp hmem with heq | hflat
      · have hut : u = t := nodup_id_inj hnd hu ht heq.symm
        subst hut
        have hcontra := hnone (k + 1)
        rw [renderSubtreeF_succ_eq, hmap] at hcontra
        exact absurd hcontra (by simp)
      · obtain ⟨c, hc, lc, hlc, hxlc⟩ := mapM_flatten_mem hmap t.id hflat
        exact ih c lc (List.mem_filter.mp hc).1 hlc hxlc

/-- C3 amended: the read side renders only the forest reachable from
`rootItems`; a task caught in a parent cycle (every cycle member has a
non-null parent, so a collection of such tasks renders nothing — in
particular the two-task cycle renders no roots at all, with no error and
no divergence), a task whose parent id is missing from the collection, and
a self-referential task are all omitted from the rendered ids rather than
demoted to roots; the persisted collection itself is never modified by
rendering, which only reads it. -/
theorem c3_amended :
    (∀ (tasks : List TodoItem) (n : Nat),
      tasks.all (fun t => t.parentId ≠ none) = true →
      renderedIdsF n tasks = some []) ∧
    (∀ (tasks : List TodoItem) (t : TodoItem) (p : String) (n : Nat) (res : List String),
      (idsOf tasks).Nodup → t ∈ tasks → t.parentId = some p →
      (∀ w ∈ tasks, w.id ≠ p) →
      renderedIdsF n tasks = some res → t.id ∉ res) ∧
    (∀ (tasks : List TodoItem) (t : TodoItem) (n : Nat) (res : List String),
      (idsOf tasks).Nodup → t ∈ tasks → t.parentId = some t.id →
      renderedIdsF n tasks = some res → t.id ∉ res) := by
  refine ⟨?_, ?_, ?_⟩
  · intro tasks n hall
    rw [renderedIdsF_eq]
    have hfil : tasks.filter (fun i => i.parentId = none) = [] := by
      rw [List.filter_eq_nil_iff]
      intro a ha
      simpa using List.all_eq_true.mp hall a ha
    rw [hfil]
    rfl
  · intro tasks t p n res hnd ht hpar hmiss hres
    rw [renderedIdsF_eq] at hres
    cases hmap : (tasks.filter (fun i => i.parentId = none)).mapM
        (fun c => renderSubtreeF n tasks c) with
    | none => rw [hmap] at hres; exact absurd hres (by simp)
    | some ls =>
      rw [hmap] at hres
      have hr : res = ls.flatten := by simpa using hres.symm
      subst hr
      intro hmem
      obtain ⟨c, hc, lc, hlc, hxlc⟩ := mapM_flatten_mem hmap t.id hmem
      have hcmem := List.mem_filter.mp hc
      exact renderSubtreeF_not_mem_missing hnd ht hpar hmiss n c lc hcmem.1
        (Or.inl (by simpa using hcmem.2)) hlc hxlc
  · intro tasks t n res hnd ht hpar hres
    rw [renderedIdsF_eq] at hres
    cases hmap : (tasks.filter (fun i => i.parentId = none)).mapM
        (fun c => renderSubtreeF n tasks c) with
    | none => rw [hmap] at hres; exact absurd hres (by simp)
    | some ls =>
      rw [hmap] at hres
      have hr : res = ls.flatten := by simpa using hres.symm
      subst hr
      intro hmem
      obtain ⟨c, hc, lc, hlc, hxlc⟩ := mapM_flatten_mem hmap t.id hmem
      exact renderSubtreeF_not_mem_selfref hnd ht hpar n c lc
        (List.mem_filter.mp hc).1 hlc hxlc

/-- C3 witness: the first part of the amended theorem applied to the
two-task cycle — every task has a parent, so nothing is rendered. -/
theorem c3_amended_witness : renderedIdsF 1 cycTasks = some [] :=
  c3_amended.1 cycTasks 1 (by decide)

/-! The view-switch merge lemmas. -/

theorem toggleViewMode_items (s : WState) :
    (toggleViewMode s).items =
      (if otherMode s.viewMode = VMode.structured then
        calculateStructuredLayout
          (mergeLists s.items (storedItems s (otherMode s.viewMode)) ++
            s.items.filter (fun it =>
              ¬ (storedItems s (otherMode s.viewMode)).any (fun ni => ni.i = it.i)))
      else
        appendFreeDefaults (mergeLists s.items (storedItems s (otherMode s.viewMode)))
          (s.items.filter (fun it =>
            ¬ (storedItems s (otherMode s.viewMode)).any (fun ni => ni.i = it.i)))) := by
  unfold toggleViewMode
  have h1 : storedItems (setStoredMin (setStoredItems s s.viewMode s.items) s.viewMode
      s.minimizedItems) (otherMode s.viewMode) = storedItems s (otherMode s.viewMode) := by
    rw [storedItems_setStoredMin,
      storedItems_setStoredItems_other _ _ (Ne.symm (otherMode_ne s.viewMode))]
  simp only [items_setMinimizedCur, items_setItemsCur, h1]

theorem typeOrder_mem (ty : MType) : ty ∈ typeOrder := by
  cases ty <;> decide

theorem mem_mapIdx_assign_aux :
    ∀ (l : List MItem) (x : MItem) (k : Nat), x ∈ l →
      ∃ idx, { x with orderIndex := some idx } ∈
        l.mapIdx (fun i m => { m with orderIndex := some (i + k) }) := by
  intro l
  induction l with
  | nil => intro x k hx; exact absurd hx (by simp)
  | cons a l ih =>
    intro x k hx
    rw [List.mapIdx_cons]
    rcases List.mem_cons.mp hx with rfl | hx2
    · exact ⟨0 + k, by simp⟩
    · have harg : (fun i (m : MItem) => { m with orderIndex := some (i + 1 + k) }) =
          (fun i (m : MItem) => { m with orderIndex := some (i + (k + 1)) }) := by
        funext i m
        have h : i + 1 + k = i + (k + 1) := by omega
        rw [h]
      rw [harg]
      obtain ⟨idx, hidx⟩ := ih x (k + 1) hx2
      exact ⟨idx, by simp [hidx]⟩

theorem mem_mapIdx_assign {l : List MItem} {x : MItem} (hx : x ∈ l) :
    ∃ k, { x with orderIndex := some k } ∈
      l.mapIdx (fun idx m => { m with orderIndex := some idx }) := by
  have harg : (fun idx (m : MItem) => { m with orderIndex := some idx }) =
      (fun idx (m : MItem) => { m with orderIndex := some (idx + 0) }) := by
    funext idx m
    rw [Nat.add_zero]
  rw [harg]
  exact mem_mapIdx_assign_aux l x 0 hx

theorem calcLayout_mem {modules : List MItem} {x : MItem} (hx : x ∈ modules) :
    ∃ k, { x with orderIndex := some k } ∈ calculateStructuredLayout modules := by
  unfold calculateStructuredLayout
  rw [if_neg (by simpa using List.ne_nil_of_mem hx)]
  by_cases hany : (modules.any (fun m => m.orderIndex ≠ none)) = true
  · rw [if_pos hany]
    exact mem_mapIdx_assign ((List.mergeSort_perm modules oiLe).mem_iff.mpr hx)
  · rw [if_neg hany]
    refine mem_mapIdx_assign (List.mem_flatMap.mpr ⟨x.type, typeOrder_mem x.type, ?_⟩)
    exact List.mem_filter.mpr ⟨hx, by simp⟩

theorem mergeLists_mem {current newItems : List MItem} {ni ci : MItem}
    (hni : ni ∈ newItems) (hfind : current.find? (fun x => x.i = ni.i) = some ci) :
    mergeModule ni ci ∈ mergeLists current newItems := by
  unfold mergeLists
  have : (match current.find? (fun x => x.i = ni.i) with
      | some ci => mergeModule ni ci
      | none => ni) = mergeModule ni ci := by
    rw [hfind]
  exact this ▸ List.mem_map_of_mem _ hni

/-- The free-view record of module m in the spec's round-trip test:
rectangle (2, 3, 8, 8), title Foo. -/
def mFreeFix : MItem :=
  { i := "m", type := MType.stickynote, x := 2, y := 3, w := 8, h := 8,
    title := some "Foo", content := some "", themeIndex := some 0 }

/-- The structured-store mirror record of module m, at order index 0. -/
def mStructFix : MItem :=
  { i := "m", type := MType.stickynote, x := 0, y := 0, w := 16, h := 8,
    title := some "Foo", content := some "", themeIndex := some 0, orderIndex := some 0 }

/-- The round-trip fixture of the spec's view-switch test: module m active
in free view, mirrored in both stores. -/
def c6Round : WState :=
  { viewMode := VMode.free, items := [mFreeFix], storedItemsFree := [mFreeFix],
    storedItemsStructured := [mStructFix] }

/-- The same workspace seen from structured view, about to switch back. -/
def c6RoundBack : WState :=
  { c6Round with viewMode := VMode.structured, items := [mStructFix] }

unseal List.merge List.mergeSort

/-- C6 amended: on a view switch the merged module carries its shared
properties (everything except the rectangle, title and content and theme
included) from the leaving list.  Switching to free view the rectangle
comes from the free store's record (the merged record is exactly
`mergeModule`); switching to structured view the merged record is re-laid
out with a fresh contiguous `orderIndex` — not the target record's index,
see the counterexample — while keeping the leaving list's shared
properties.  The spec's round-trip test holds: after editing the title to
Bar in free view, switching to structured shows Bar at a valid order index
and switching back shows Bar at the original rectangle. -/
theorem c6_amended :
    (∀ (s : WState) (ni ci : MItem), s.viewMode = VMode.structured →
      ni ∈ storedItems s VMode.free →
      s.items.find? (fun x => x.i = ni.i) = some ci →
      mergeModule ni ci ∈ (toggleViewMode s).items) ∧
    (∀ (s : WState) (ni ci : MItem), s.viewMode = VMode.free →
      ni ∈ storedItems s VMode.structured →
      s.items.find? (fun x => x.i = ni.i) = some ci →
      ∃ k, { mergeModule ni ci with orderIndex := some k } ∈ (toggleViewMode s).items) ∧
    ((toggleViewMode (updateContent "m" { title := some "Bar" } c6Round)).items.map
        (fun x => (x.i, x.title, x.orderIndex)) = [("m", some "Bar", some 0)] ∧
      (toggleViewMode (toggleViewMode
          (updateContent "m" { title := some "Bar" } c6Round))).items.map
        (fun x => (x.i, x.title, x.x, x.y, x.w, x.h)) = [("m", some "Bar", 2, 3, 8, 8)]) := by
  refine ⟨?_, ?_, by decide, by decide⟩
  · intro s ni ci hv hni hfind
    rw [toggleViewMode_items, hv]
    rw [if_neg (by simp [otherMode])]
    unfold appendFreeDefaults
    exact List.mem_append_left _ (mergeLists_mem (by simpa [otherMode, hv] using hni) hfind)
  · intro s ni ci hv hni hfind
    rw [toggleViewMode_items, hv]
    rw [if_pos (by simp [otherMode])]
    refine calcLayout_mem (List.mem_append_left _ ?_)
    exact mergeLists_mem (by simpa [otherMode, hv] using hni) hfind

/-- C6 witness: the free-direction part of the amended theorem — switching
back to free view, module m reappears as the merge of its free-store
record with the current structured copy. -/
theorem c6_amended_witness :
    mergeModule mFreeFix mStructFix ∈ (toggleViewMode c6RoundBack).items :=
  c6_amended.1 _ _ _ rfl (by decide) (by decide)

/-! The descendant relation versus the computed descendant list. -/

theorem mem_shape_iff {tasks : List TodoItem} {x : String} {op : Option String} :
    (x, op) ∈ shape tasks ↔ ∃ t ∈ tasks, t.id = x ∧ t.parentId = op := by
  unfold shape
  rw [List.mem_map]
  constructor
  · rintro ⟨t, ht, heq⟩
    injection heq with h1 h2
    exact ⟨t, ht, h1, h2⟩
  · rintro ⟨t, ht, h1, h2⟩
    exact ⟨t, ht, by rw [h1, h2]⟩

theorem IsDescS_lift {sh : List (String × Option String)} {c x r : String}
    (h : IsDescS sh c x) (hc : (c, some r) ∈ sh) : IsDescS sh r x := by
  induction h with
  | child y hy => exact IsDescS.step y c hy (IsDescS.child c hc)
  | step y p hy hdesc ih => exact IsDescS.step y p hy ih

theorem IsDescS_head {sh : List (String × Option String)} {r x : String}
    (h : IsDescS sh r x) : ∃ c, (c, some r) ∈ sh ∧ (x = c ∨ IsDescS sh c x) := by
  induction h with
  | child y hy => exact ⟨y, hy, Or.inl rfl⟩
  | step y p hy hdesc ih =>
    obtain ⟨c, hc, hcase⟩ := ih
    rcases hcase with heq | hdesc2
    · rw [heq] at hy
      exact ⟨c, hc, Or.inr (IsDescS.child y hy)⟩
    · exact ⟨c, hc, Or.inr (IsDescS.step y p hy hdesc2)⟩

theorem mapM_flatten_sub {α β : Type} {f : α → Option (List β)} :
    ∀ {cs : List α} {ls : List (List β)}, cs.mapM f = some ls →
      ∀ c ∈ cs, ∀ lc, f c = some lc → ∀ x ∈ lc, x ∈ ls.flatten := by
  intro cs
  induction cs with
  | nil => intro ls h c hc; exact absurd hc (by simp)
  | cons a as ih =>
    intro ls h c hc lc hlc x hx
    rw [List.mapM_cons] at h
    cases hfa : f a with
    | none => rw [hfa] at h; exact absurd h (by simp)
    | some b =>
      rw [hfa] at h
      cases hrest : as.mapM f with
      | none => rw [hrest] at h; exact absurd h (by simp)
      | some bs =>
        rw [hrest] at h
        have hls : ls = b :: bs := by simpa using h.symm
        subst hls
        rw [List.flatten_cons, List.mem_append]
        rcases List.mem_cons.mp hc with rfl | hc2
        · rw [hfa] at hlc
          cases hlc
          exact Or.inl hx
        · exact Or.inr (ih hrest c hc2 lc hlc x hx)

theorem getDescendantsF_sound {tasks : List TodoItem} :
    ∀ (n : Nat) (root : String) (ds : List String),
      getDescendantsF n root tasks = some ds →
      ∀ x ∈ ds, IsDescS (shape tasks) root x := by
  intro n
  induction n with
  | zero => intro root ds h; exact absurd h (by simp [getDescendantsF])
  | succ k ih =>
    intro root ds h x hx
    rw [getDescendantsF_succ_eq] at h
    cases hmap : (tasks.filter (fun i => i.parentId = some root)).mapM
        (fun c => getDescendantsF k c.id tasks) with
    | none => rw [hmap] at h; exact absurd h (by simp)
    | some ls =>
      rw [hmap] at h
      have hds : ds = (tasks.filter (fun i => i.parentId = some root)).map
          (fun c => c.id) ++ ls.flatten := by simpa using h.symm
      subst hds
      rcases List.mem_append.mp hx with hchild | hflat
      · obtain ⟨c, hc, rfl⟩ := List.mem_map.mp hchild
        have hcmem := List.mem_filter.mp hc
        exact IsDescS.child c.id (mem_shape_iff.mpr ⟨c, hcmem.1, rfl, by simpa using hcmem.2⟩)
      · obtain ⟨c, hc, lc, hlc, hxlc⟩ := mapM_flatten_mem hmap x hflat
        have hcmem := List.mem_filter.mp hc
        exact IsDescS_lift (ih c.id lc hlc x hxlc)
          (mem_shape_iff.mpr ⟨c, hcmem.1, rfl, by simpa using hcmem.2⟩)

theorem getDescendantsF_complete {tasks : List TodoItem} :
    ∀ (n : Nat) (root : String) (ds : List String),
      getDescendantsF n root tasks = some ds →
      ∀ x, IsDescS (shape tasks) root x → x ∈ ds := by
  intro n
  induction n with
  | zero => intro root ds h; exact absurd h (by simp [getDescendantsF])
  | succ k ih =>
    intro root ds h x hx
    rw [getDescendantsF_succ_eq] at h
    cases hmap : (tasks.filter (fun i => i.parentId = some root)).mapM
        (fun c => getDescendantsF k c.id tasks) with
    | none => rw [hmap] at h; exact absurd h (by simp)
    | some ls =>
      rw [hmap] at h
      have hds : ds = (tasks.filter (fun i => i.parentId = some root)).map
          (fun c => c.id) ++ ls.flatten := by simpa using h.symm
      subst hds
      obtain ⟨c0, hc0, hcase⟩ := IsDescS_head hx
      obtain ⟨ct, hct, hctid, hctpar⟩ := mem_shape_iff.mp hc0
      have hctmem : ct ∈ tasks.filter (fun i => i.parentId = some root) :=
        List.mem_filter.mpr ⟨hct, by simp [hctpar]⟩
      rw [List.mem_append]
      rcases hcase with rfl | hdesc2
      · exact Or.inl (List.mem_map.mpr ⟨ct, hctmem, hctid⟩)
      · obtain ⟨lc, hlc⟩ := mapM_some_of_mem hmap ct hctmem
        have hxin : x ∈ lc := ih ct.id lc hlc x (by rw [hctid]; exact hdesc2)
        exact Or.inr (mapM_flatten_sub hmap ct hctmem lc hlc x hxin)

theorem forall2_map_right {α : Type} {l : List α} {f : α → α} {R : α → α → Prop}
    (h : ∀ u ∈ l, R u (f u)) : List.Forall₂ R l (l.map f) := by
  induction l with
  | nil => exact List.Forall₂.nil
  | cons a l ih =>
    rw [List.map_cons]
    exact List.Forall₂.cons (h a (by simp)) (ih (fun u hu => h u (by simp [hu])))

/-- C5: moving a task to a target module different from its current one
reassigns `originModuleId` on the task and its whole descendant closure,
clears `parentId` on the task itself only, keeps every descendant's
`parentId`, and leaves every other task untouched — position by position
over the collection (forests, i.e. collections admitting a child-decreasing
measure, with duplicate-free ids). -/
theorem c5_moveTodo (tasks : List TodoItem) (meas : String → Nat) (t : TodoItem)
    (target : String) (n : Nat)
    (hm : childMeasureB meas tasks = true)
    (hnd : (idsOf tasks).Nodup)
    (ht : t ∈ tasks)
    (htarget : t.originModuleId ≠ target)
    (hfuel : meas t.id < n) :
    ∃ r, moveTodoF n t.id target tasks = some r ∧
      List.Forall₂ (fun u v =>
        (u.id = t.id → v = { u with originModuleId := target, parentId := none }) ∧
        (u.id ≠ t.id → IsDescS (shape tasks) t.id u.id →
          v = { u with originModuleId := target }) ∧
        (u.id ≠ t.id → ¬ IsDescS (shape tasks) t.id u.id → v = u)) tasks r := by
  obtain ⟨descs, hdescs⟩ :=
    Option.isSome_iff_exists.mp (getDescendantsF_isSome hm n t.id hfuel)
  refine ⟨tasks.map (fun u =>
      if (t.id :: descs).contains u.id then
        { u with originModuleId := target,
                 parentId :=
                   if u.id = t.id ∧ u.originModuleId ≠ target then none
                   else u.parentId }
      else u), ?_, ?_⟩
  · unfold moveTodoF
    rw [hdescs]
  · refine forall2_map_right ?_
    intro u hu
    refine ⟨?_, ?_, ?_⟩
    · intro hid
      have hut : u = t := nodup_id_inj hnd hu ht hid
      have hcont : ((t.id :: descs).contains u.id) = true := by
        simp [hid]
      rw [if_pos hcont, if_pos ⟨hid, by rw [hut]; exact htarget⟩]
    · intro hne hdesc
      have hmemd : u.id ∈ descs := getDescendantsF_complete n t.id descs hdescs u.id hdesc
      have hcont : ((t.id :: descs).contains u.id) = true := by
        simp [hmemd]
      rw [if_pos hcont, if_neg (fun hconj => hne hconj.1)]
    · intro hne hnodesc
      have hnomem : u.id ∉ descs := fun hmem =>
        hnodesc (getDescendantsF_sound n t.id descs hdescs u.id hmem)
      have hcont : ¬ (((t.id :: descs).contains u.id) = true) := by
        simp [hne, hnomem]
      rw [if_neg hcont]

/-- C5 witness: moving the child c1 of the five-task forest to module m2 —
the theorem applies with the depth measure and fuel 6. -/
theorem c5_moveTodo_witness :
    ∃ r, moveTodoF 6 "c1" "m2" [
      ({ id := "r", originModuleId := "m" } : TodoItem),
      { id := "c1", parentId := some "r", originModuleId := "m" },
      { id := "c2", parentId := some "r", originModuleId := "m" },
      { id := "g1", parentId := some "c1", originModuleId := "m" },
      { id := "g2", parentId := some "c2", originModuleId := "m" }] = some r ∧
    List.Forall₂ (fun u v =>
        (u.id = "c1" → v = { u with originModuleId := "m2", parentId := none }) ∧
        (u.id ≠ "c1" → IsDescS (shape [
          ({ id := "r", originModuleId := "m" } : TodoItem),
          { id := "c1", parentId := some "r", originModuleId := "m" },
          { id := "c2", parentId := some "r", originModuleId := "m" },
          { id := "g1", parentId := some "c1", originModuleId := "m" },
          { id := "g2", parentId := some "c2", originModuleId := "m" }]) "c1" u.id →
          v = { u with originModuleId := "m2" }) ∧
        (u.id ≠ "c1" → ¬ IsDescS (shape [
          ({ id := "r", originModuleId := "m" } : TodoItem),
          { id := "c1", parentId := some "r", originModuleId := "m" },
          { id := "c2", parentId := some "r", originModuleId := "m" },
          { id := "g1", parentId := some "c1", originModuleId := "m" },
          { id := "g2", parentId := some "c2", originModuleId := "m" }]) "c1" u.id → v = u))
      [({ id := "r", originModuleId := "m" } : TodoItem),
       { id := "c1", parentId := some "r", originModuleId := "m" },
       { id := "c2", parentId := some "r", originModuleId := "m" },
       { id := "g1", parentId := some "c1", originModuleId := "m" },
       { id := "g2", parentId := some "c2", originModuleId := "m" }] r :=
  c5_moveTodo _
    (fun s => if s = "r" then 2 else if s = "c1" then 1 else if s = "c2" then 1 else 0)
    { id := "c1", parentId := some "r", originModuleId := "m" } "m2" 6
    (by decide) (by decide) (by decide) (by decide) (by decide)

/-! The down-phase of `updateTodo` as an id-set update: `markChildren`
threads one collection through the recursion, and with duplicate-free ids
each `updateItem` call flips exactly the task with the given id, so the
whole phase is a single map over the collection governed by the set of ids
visited. -/

/-- Flip `done` to `st` on `u` when its id lies in `s`. -/
def setOne (s : List String) (st : Bool) (u : TodoItem) : TodoItem :=
  if s.contains u.id then { u with done := st } else u

/-- Flip `done` to `st` on the tasks whose id lies in `s`. -/
def setIds (s : List String) (st : Bool) (l : List TodoItem) : List TodoItem :=
  l.map (setOne s st)

theorem setOne_id (s : List String) (st : Bool) (u : TodoItem) :
    (setOne s st u).id = u.id := by
  unfold setOne
  split <;> rfl

theorem setOne_parentId (s : List String) (st : Bool) (u : TodoItem) :
    (setOne s st u).parentId = u.parentId := by
  unfold setOne
  split <;> rfl

theorem setOne_done_override (s : List String) (st : Bool) (u : TodoItem) :
    { setOne s st u with done := st } = { u with done := st } := by
  unfold setOne
  split <;> rfl

theorem setIds_nil_eq (st : Bool) (l : List TodoItem) : setIds [] st l = l := by
  unfold setIds
  induction l with
  | nil => rfl
  | cons u us ih => rw [List.map_cons, ih]; rfl

theorem shape_setIds (s : List String) (st : Bool) (l : List TodoItem) :
    shape (setIds s st l) = shape l := by
  unfold shape setIds
  rw [List.map_map]
  apply List.map_congr_left
  intro u _
  simp [Function.comp, setOne_id, setOne_parentId]

theorem idsOf_setIds (s : List String) (st : Bool) (l : List TodoItem) :
    idsOf (setIds s st l) = idsOf l := by
  unfold idsOf setIds
  rw [List.map_map]
  apply List.map_congr_left
  intro u _
  simp [Function.comp, setOne_id]

theorem setOne_cons_ne {x : String} {u : TodoItem} (h : u.id ≠ x) (s : List String)
    (st : Bool) : setOne (x :: s) st u = setOne s st u := by
  have hbeq : (u.id == x) = false := beq_eq_false_iff_ne.mpr h
  unfold setOne
  simp only [List.contains_cons, hbeq, Bool.false_or]

theorem setIds_cons_notin {x : String} {l : List TodoItem} (h : x ∉ idsOf l)
    (s : List String) (st : Bool) : setIds (x :: s) st l = setIds s st l := by
  unfold setIds
  apply List.map_congr_left
  intro u hu
  exact setOne_cons_ne (fun he => h (List.mem_map.mpr ⟨u, hu, he⟩)) s st

theorem updateItemDone_setIds {l : List TodoItem} (hnd : (idsOf l).Nodup)
    (x : String) (st : Bool) (s : List String) :
    updateItemDone x st (setIds s st l) = setIds (x :: s) st l := by
  induction l with
  | nil => rfl
  | cons u us ih =>
    have hnds : (idsOf (u :: us)).Nodup := hnd
    rw [show idsOf (u :: us) = u.id :: idsOf us from rfl, List.nodup_cons] at hnds
    show updateItemDone x st (setOne s st u :: setIds s st us) = setIds (x :: s) st (u :: us)
    by_cases hx : u.id = x
    · have hnotin : x ∉ idsOf us := hx ▸ hnds.1
      unfold updateItemDone
      rw [if_pos (by rw [setOne_id]; exact hx)]
      show { setOne s st u with done := st } :: setIds s st us = _
      rw [setOne_done_override]
      show _ = setOne (x :: s) st u :: setIds (x :: s) st us
      rw [setIds_cons_notin hnotin]
      have hhead : setOne (x :: s) st u = { u with done := st } := by
        have hbeq : (u.id == x) = true := by simp [hx]
        unfold setOne
        simp only [List.contains_cons, hbeq, Bool.true_or, if_pos]
      rw [hhead]
    · unfold updateItemDone
      rw [if_neg (by rw [setOne_id]; exact hx)]
      show setOne s st u :: updateItemDone x st (setIds s st us) = _
      rw [ih hnds.2]
      show _ = setOne (x :: s) st u :: setIds (x :: s) st us
      rw [setOne_cons_ne hx]

theorem foldl_updateItemDone_setIds {l : List TodoItem} (hnd : (idsOf l).Nodup)
    (st : Bool) :
    ∀ (chain : List String) (s : List String),
      chain.foldl (fun acc p => updateItemDone p st acc) (setIds s st l) =
        setIds (chain.reverse ++ s) st l := by
  intro chain
  induction chain with
  | nil => intro s; rw [List.foldl_nil, List.reverse_nil, List.nil_append]
  | cons p rest ih =>
    intro s
    rw [List.foldl_cons, updateItemDone_setIds hnd p st s, ih (p :: s),
      List.reverse_cons, List.append_assoc, List.singleton_append]

theorem filter_parent_setIds (s : List String) (st : Bool) (l : List TodoItem)
    (p : String) :
    (setIds s st l).filter (fun t => t.parentId = some p) =
      setIds s st (l.filter (fun t => t.parentId = some p)) := by
  unfold setIds
  rw [List.filter_map]
  congr 1
  apply List.filter_congr
  intro u _
  simp [Function.comp, setOne_parentId]

theorem markChildrenF_setIds (meas : String → Nat) (l : List TodoItem) (st : Bool)
    (hm : childMeasureB meas l = true) (hnd : (idsOf l).Nodup) :
    ∀ (n : Nat) (p : String) (s : List String), meas p < n →
      ∃ ds, markChildrenF n st p (setIds s st l) = some (setIds (ds ++ s) st l) ∧
        ∀ x, x ∈ ds ↔ IsDescS (shape l) p x := by
  intro n
  induction n with
  | zero => intro p s h; omega
  | succ k ih =>
    intro p s hp
    unfold markChildrenF
    rw [filter_parent_setIds]
    have haux : ∀ (cs : List TodoItem),
        (∀ c ∈ cs, ∃ c0 ∈ l, c0.id = c.id ∧ c0.parentId = some p) →
        ∀ (s' : List String), ∃ ds,
          (cs.foldlM (fun acc c => markChildrenF k st c.id (updateItemDone c.id st acc))
            (setIds s' st l)) = some (setIds (ds ++ s') st l) ∧
          ∀ x, x ∈ ds ↔ ∃ c ∈ cs, x = c.id ∨ IsDescS (shape l) c.id x := by
      intro cs
      induction cs with
      | nil =>
        intro _ s'
        refine ⟨[], by rw [List.foldlM_nil]; rfl, ?_⟩
        intro x
        simp
      | cons c cs ihc =>
        intro hcs s'
        obtain ⟨c0, hc0l, hc0id, hc0par⟩ := hcs c (by simp)
        have hlt : meas c.id < meas p := by
          have := childMeasure_spec hm c0 hc0l p hc0par
          rwa [hc0id] at this
        rw [List.foldlM_cons, updateItemDone_setIds hnd c.id st s']
        obtain ⟨ds1, hds1, hds1mem⟩ := ih c.id (c.id :: s') (by omega)
        rw [hds1]
        obtain ⟨ds2, hds2, hds2mem⟩ :=
          ihc (fun d hd => hcs d (by simp [hd])) (ds1 ++ c.id :: s')
        refine ⟨ds2 ++ ds1 ++ [c.id], ?_, ?_⟩
        · have harr : (ds2 ++ ds1 ++ [c.id]) ++ s' = ds2 ++ (ds1 ++ (c.id :: s')) := by
            simp [List.append_assoc]
          rw [harr]
          exact hds2
        · intro x
          constructor
          · intro hx
            rcases List.mem_append.mp hx with hx' | hxc
            · rcases List.mem_append.mp hx' with hx2 | hx1
              · obtain ⟨c', hc', hcase⟩ := (hds2mem x).mp hx2
                exact ⟨c', by simp [hc'], hcase⟩
              · exact ⟨c, by simp, Or.inr ((hds1mem x).mp hx1)⟩
            · exact ⟨c, by simp, Or.inl (by simpa using hxc)⟩
          · rintro ⟨c', hc', hcase⟩
            rcases List.mem_cons.mp hc' with rfl | hc'2
            · rcases hcase with heq | hdesc
              · exact List.mem_append.mpr (Or.inr (by simp [heq]))
              · exact List.mem_append.mpr (Or.inl (List.mem_append.mpr
                  (Or.inr ((hds1mem x).mpr hdesc))))
            · exact List.mem_append.mpr (Or.inl (List.mem_append.mpr
                (Or.inl ((hds2mem x).mpr ⟨c', hc'2, hcase⟩))))
    have hmem : ∀ c ∈ setIds s st (l.filter (fun t => t.parentId = some p)),
        ∃ c0 ∈ l, c0.id = c.id ∧ c0.parentId = some p := by
      intro c hc
      have hc2 : ∃ a, (a ∈ l ∧ a.parentId = some p) ∧ setOne s st a = c := by
        simpa [setIds, List.mem_filter] using hc
      obtain ⟨c0, ⟨hc0l, hc0p⟩, hceq⟩ := hc2
      refine ⟨c0, hc0l, ?_, hc0p⟩
      rw [← hceq, setOne_id]
    obtain ⟨ds, hds, hdsmem⟩ := haux _ hmem s
    refine ⟨ds, hds, ?_⟩
    intro x
    rw [hdsmem x]
    constructor
    · rintro ⟨c, hc, hcase⟩
      obtain ⟨c0, hc0l, hc0id, hc0par⟩ := hmem c hc
      have hsh : (c.id, some p) ∈ shape l :=
        mem_shape_iff.mpr ⟨c0, hc0l, hc0id, hc0par⟩
      rcases hcase with heq | hdesc
      · rw [heq]
        exact IsDescS.child c.id hsh
      · exact IsDescS_lift hdesc hsh
    · intro hdesc
      obtain ⟨cid, hcsh, hcase⟩ := IsDescS_head hdesc
      obtain ⟨ct, hctl, hctid, hctpar⟩ := mem_shape_iff.mp hcsh
      refine ⟨setOne s st ct, ?_, ?_⟩
      · show setOne s st ct ∈ setIds s st (l.filter (fun t => t.parentId = some p))
        unfold setIds
        exact List.mem_map.mpr ⟨ct, List.mem_filter.mpr ⟨hctl, by simp [hctpar]⟩, rfl⟩
      · rw [setOne_id, hctid]
        exact hcase

/-- C2: on a collection whose parent links form a forest (child-decreasing
measure) with duplicate-free ids, for a task with ancestor chain `chain` and
enough fuel: setDone(id, true) first sets `done := true` on the task and
exactly its descendant closure (`CascadedDown`), then performs the claim's
upward walk (`specWalkTrue`) that sets each successive ancestor done only if
all its direct children are done, stopping at the first failure; and
setDone(id, false) sets `done := false` on exactly the task, its descendant
closure and every strict ancestor on the chain, leaving all other tasks
untouched. -/
theorem c2_setDone (tasks : List TodoItem) (meas : String → Nat) (t : TodoItem)
    (chain : List String) (n : Nat)
    (hm : childMeasureB meas tasks = true)
    (hnd : (idsOf tasks).Nodup)
    (ht : t ∈ tasks)
    (hchain : ancChainOk tasks t.id chain = true)
    (hfuel : meas t.id < n)
    (hclen : chain.length ≤ n) :
    (∃ d, CascadedDown true t.id tasks d ∧
       updateTodoDoneF n t.id true tasks = some (specWalkTrue chain d)) ∧
    (∃ r, updateTodoDoneF n t.id false tasks = some r ∧
       List.Forall₂ (fun u v =>
         ((u.id = t.id ∨ IsDescS (shape tasks) t.id u.id ∨ u.id ∈ chain) →
           v = { u with done := false }) ∧
         (¬ (u.id = t.id ∨ IsDescS (shape tasks) t.id u.id ∨ u.id ∈ chain) → v = u))
         tasks r) := by
  constructor
  · obtain ⟨ds, hds, hdsmem⟩ := markChildrenF_setIds meas tasks true hm hnd n t.id [t.id] hfuel
    have hupd : updateItemDone t.id true tasks = setIds [t.id] true tasks := by
      have h0 := updateItemDone_setIds hnd t.id true []
      rwa [setIds_nil_eq] at h0
    have hchain2 : ancChainOk (setIds (ds ++ [t.id]) true tasks) t.id chain = true := by
      rw [ancChainOk_of_shape (shape_setIds (ds ++ [t.id]) true tasks) chain t.id]
      exact hchain
    refine ⟨setIds (ds ++ [t.id]) true tasks, ?_, ?_⟩
    · unfold CascadedDown setIds
      refine forall2_map_right ?_
      intro u hu
      constructor
      · intro hcase
        have hmemu : u.id ∈ ds ++ [t.id] := by
          rcases hcase with heq | hdesc
          · exact List.mem_append.mpr (Or.inr (by simp [heq]))
          · exact List.mem_append.mpr (Or.inl ((hdsmem u.id).mpr hdesc))
        show setOne (ds ++ [t.id]) true u = { u with done := true }
        unfold setOne
        rw [if_pos (by simpa using hmemu)]
      · intro hcase
        have hmemu : u.id ∉ ds ++ [t.id] := by
          intro hmem
          rcases List.mem_append.mp hmem with h1 | h2
          · exact hcase (Or.inr ((hdsmem u.id).mp h1))
          · exact hcase (Or.inl (by simpa using h2))
        show setOne (ds ++ [t.id]) true u = u
        unfold setOne
        rw [if_neg (by simpa using hmemu)]
    · have hb := bubbleUpF_chain chain t.id (setIds (ds ++ [t.id]) true tasks) n hchain2 hclen
      unfold updateTodoDoneF
      simp only [hupd, hds, if_true]
      exact hb
  · obtain ⟨ds, hds, hdsmem⟩ := markChildrenF_setIds meas tasks false hm hnd n t.id [t.id] hfuel
    have hupd : updateItemDone t.id false tasks = setIds [t.id] false tasks := by
      have h0 := updateItemDone_setIds hnd t.id false []
      rwa [setIds_nil_eq] at h0
    have hchain2 : ancChainOk (setIds (ds ++ [t.id]) false tasks) t.id chain = true := by
      rw [ancChainOk_of_shape (shape_setIds (ds ++ [t.id]) false tasks) chain t.id]
      exact hchain
    have hfold := forceUpF_chain chain t.id (setIds (ds ++ [t.id]) false tasks) n hchain2 hclen
    have hres : chain.foldl (fun acc p => updateItemDone p false acc)
        (setIds (ds ++ [t.id]) false tasks) =
        setIds (chain.reverse ++ (ds ++ [t.id])) false tasks :=
      foldl_updateItemDone_setIds hnd false chain (ds ++ [t.id])
    refine ⟨setIds (chain.reverse ++ (ds ++ [t.id])) false tasks, ?_, ?_⟩
    · unfold updateTodoDoneF
      simp only [hupd, hds, Bool.false_eq_true, if_false]
      rw [← hres]
      exact hfold
    · unfold setIds
      refine forall2_map_right ?_
      intro u hu
      constructor
      · intro hcase
        have hmemu : u.id ∈ chain.reverse ++ (ds ++ [t.id]) := by
          rcases hcase with heq | hdesc | hch
          · exact List.mem_append.mpr (Or.inr (List.mem_append.mpr (Or.inr (by simp [heq]))))
          · exact List.mem_append.mpr (Or.inr (List.mem_append.mpr
              (Or.inl ((hdsmem u.id).mpr hdesc))))
          · exact List.mem_append.mpr (Or.inl (List.mem_reverse.mpr hch))
        show setOne (chain.reverse ++ (ds ++ [t.id])) false u = { u with done := false }
        unfold setOne
        rw [if_pos (by simpa using hmemu)]
      · intro hcase
        have hmemu : u.id ∉ chain.reverse ++ (ds ++ [t.id]) := by
          intro hmem
          rcases List.mem_append.mp hmem with h1 | h2
          · exact hcase (Or.inr (Or.inr (List.mem_reverse.mp h1)))
          · rcases List.mem_append.mp h2 with h3 | h4
            · exact hcase (Or.inr (Or.inl ((hdsmem u.id).mp h3)))
            · exact hcase (Or.inl (by simpa using h4))
        show setOne (chain.reverse ++ (ds ++ [t.id])) false u = u
        unfold setOne
        rw [if_neg (by simpa using hmemu)]

/-- The five-task forest of the spec's cascade scenario: root r with
children c1, c2, each having one grandchild. -/
def fiveTasks : List TodoItem :=
  [{ id := "r", originModuleId := "m" },
   { id := "c1", parentId := some "r", originModuleId := "m" },
   { id := "c2", parentId := some "r", originModuleId := "m" },
   { id := "g1", parentId := some "c1", originModuleId := "m" },
   { id := "g2", parentId := some "c2", originModuleId := "m" }]

/-- C2 witness: the cascade theorem applied to the child c1 of the five-task
forest, with the depth measure, ancestor chain [r] and fuel 6. -/
theorem c2_setDone_witness :
    (∃ d, CascadedDown true "c1" fiveTasks d ∧
       updateTodoDoneF 6 "c1" true fiveTasks = some (specWalkTrue ["r"] d)) ∧
    (∃ r, updateTodoDoneF 6 "c1" false fiveTasks = some r ∧
       List.Forall₂ (fun u v =>
         ((u.id = "c1" ∨ IsDescS (shape fiveTasks) "c1" u.id ∨ u.id ∈ ["r"]) →
           v = { u with done := false }) ∧
         (¬ (u.id = "c1" ∨ IsDescS (shape fiveTasks) "c1" u.id ∨ u.id ∈ ["r"]) → v = u))
         fiveTasks r) :=
  c2_setDone fiveTasks
    (fun s => if s = "r" then 2 else if s = "c1" then 1 else if s = "c2" then 1 else 0)
    { id := "c1", parentId := some "r", originModuleId := "m" }
    ["r"] 6 (by decide) (by decide) (by decide) (by decide) (by decide) (by decide)
